import Mathlib

/-!
Verification development for the Antigravity chat provider.

This file contains a shallow embedding of the provider's core algorithms:

* the JSON-schema cleaning pipeline (`src/antigravity/request-helpers/schema-cleaning.ts`),
* the model resolver (`src/antigravity/transform/model-resolver.ts`),
* the message conversion and tool-pairing logic (`src/provider.ts`),
* the streaming line reassembler and response translator (`src/provider.ts`).

JSON values are modelled by the inductive `JSON` below; JavaScript objects are
ordered association lists (insertion order preserved, unique keys), matching the
semantics of object spread, indexed assignment and `Object.entries`.  JSON
numbers are modelled as integers (no claim verified here depends on float
behaviour).  Recursive tree-rewriting functions take an explicit fuel argument
so that they are structurally recursive and kernel-computable; the fuel is
instantiated with `jsonSize`, the total node count of the input, which bounds
the recursion depth of the corresponding JavaScript functions on the inputs
considered here (JavaScript itself has a finite recursion budget).
-/

/-- A JSON value, as manipulated by the provider.  Objects are insertion-ordered
association lists with unique keys, which is the JavaScript object model needed
by the code (spread copies, in-place keyed assignment, `Object.entries`). -/
inductive JSON where
  | null
  | bool (b : Bool)
  | num (n : Int)
  | str (s : String)
  | arr (elems : List JSON)
  | obj (fields : List (String × JSON))
deriving Repr, Inhabited

abbrev JFields := List (String × JSON)

mutual
/-- Total node count of a JSON value; used as fuel for tree rewriters. -/
def jsonSize : JSON → Nat
  | .arr es => 1 + jsonSizeList es
  | .obj fs => 1 + jsonSizeFields fs
  | _ => 1
def jsonSizeList : List JSON → Nat
  | [] => 0
  | e :: es => jsonSize e + jsonSizeList es
def jsonSizeFields : JFields → Nat
  | [] => 0
  | (_, v) :: fs => jsonSize v + jsonSizeFields fs
end

/-- `typeof v === "object" && v !== null` for arrays and objects; JavaScript
arrays are objects. -/
def isJsObject : JSON → Bool
  | .arr _ => true
  | .obj _ => true
  | _ => false

/-- JavaScript truthiness of a value. -/
def jsTruthy : JSON → Bool
  | .null => false
  | .bool b => b
  | .num n => n != 0
  | .str s => s ≠ ""
  | .arr _ => true
  | .obj _ => true

/-- Truthiness of a possibly-undefined value (`undefined` is falsy). -/
def jsTruthyOpt : Option JSON → Bool
  | none => false
  | some j => jsTruthy j

/-- Property lookup in an object's field list. -/
def objGet : JFields → String → Option JSON
  | [], _ => none
  | (k, v) :: fs, key => if k = key then some v else objGet fs key

/-- `obj[key] !== undefined`. -/
def objHas (fs : JFields) (key : String) : Bool := (objGet fs key).isSome

/-- JavaScript keyed assignment `obj[key] = v`: updates in place when the key
exists (keeping its position), appends otherwise. -/
def objSet : JFields → String → JSON → JFields
  | [], key, v => [(key, v)]
  | (k, w) :: fs, key, v => if k = key then (k, v) :: fs else (k, w) :: objSet fs key v

/-- `delete obj[key]` / object-rest destructuring that omits `key`. -/
def objDel : JFields → String → JFields
  | [], _ => []
  | (k, w) :: fs, key => if k = key then fs else (k, w) :: objDel fs key

/-- Property access `v.key` on an arbitrary value: only (non-array) objects have
the provider's keys of interest; on any other value it is `undefined`. -/
def jGet : JSON → String → Option JSON
  | .obj fs, key => objGet fs key
  | _, _ => none

/-- The fields contributed by spreading a value into an object literal
(`{...v}`): objects give their fields, arrays index-keyed elements, strings
index-keyed characters, other primitives nothing.  `Object.entries` agrees with
this on every case used by the code. -/
def idxFields : Nat → List JSON → JFields
  | _, [] => []
  | i, e :: es => (toString i, e) :: idxFields (i + 1) es

def spreadFields : JSON → JFields
  | .obj fs => fs
  | .arr es => idxFields 0 es
  | .str s => idxFields 0 (s.toList.map (fun c => .str (String.mk [c])))
  | _ => []

/-- `{...a, ...b}`: keys of `a` in order, overridden in place by `b`, new keys
of `b` appended in order. -/
def objMergeFields (a b : JFields) : JFields :=
  b.foldl (fun acc kv => objSet acc kv.1 kv.2) a

mutual
/-- JavaScript `String(v)` stringification (array elements join with a comma,
`null`/`undefined` elements render empty, objects render `[object Object]`). -/
def jsString : JSON → String
  | .null => "null"
  | .bool true => "true"
  | .bool false => "false"
  | .num n => toString n
  | .str s => s
  | .arr es => jsStringList es
  | .obj _ => "[object Object]"
def jsStringList : List JSON → String
  | [] => ""
  | [.null] => ""
  | [e] => jsString e
  | .null :: es => "," ++ jsStringList es
  | e :: es => jsString e ++ "," ++ jsStringList es
end

/-- Strict equality `===` as used on primitive values; distinct composite
values compare by reference and are conservatively unequal here (the code only
compares freshly-built values). -/
def jsStrictEq : JSON → JSON → Bool
  | .null, .null => true
  | .bool a, .bool b => a == b
  | .num a, .num b => a == b
  | .str a, .str b => a == b
  | _, _ => false

/-- `Array.prototype.includes` under `jsStrictEq`. -/
def jsIncludesVal (l : List JSON) (v : JSON) : Bool := l.any (fun x => jsStrictEq x v)

/-- `Array.from(new Set(l))`: first occurrences in order. -/
def jsDedup (l : List JSON) : List JSON :=
  l.foldl (fun acc x => if jsIncludesVal acc x then acc else acc ++ [x]) []

/-- Does `v` equal the string literal `s` (`v === "s"`)? -/
def isStrVal (j : JSON) (s : String) : Bool :=
  match j with
  | .str t => t = s
  | _ => false

def startsWithList : List Char → List Char → Bool
  | _, [] => true
  | [], _ :: _ => false
  | c :: cs, p :: ps => c == p && startsWithList cs ps

def containsList : List Char → List Char → Bool
  | [], ps => ps.isEmpty
  | c :: cs, ps => startsWithList (c :: cs) ps || containsList cs ps

/-- `String.prototype.includes`. -/
def jsIncludes (s pat : String) : Bool := containsList s.toList pat.toList

/-- ASCII lower-casing (the model identifiers and markers the code lower-cases
are ASCII). -/
def lowerChar (c : Char) : Char :=
  if 'A' ≤ c && c ≤ 'Z' then Char.ofNat (c.toNat + 32) else c

/-- `String.prototype.toLowerCase`. -/
def jsToLower (s : String) : String := String.mk (s.toList.map lowerChar)

/-- `String.prototype.startsWith`. -/
def strStartsWith (s p : String) : Bool := startsWithList s.toList p.toList

/-- `String.prototype.endsWith`. -/
def strEndsWith (s p : String) : Bool := startsWithList s.toList.reverse p.toList.reverse

/-- `s.split("/").pop()`: the segment after the last slash. -/
def lastSegmentAfterSlash (s : String) : String :=
  String.mk ((s.toList.reverse.takeWhile (fun c => c ≠ '/')).reverse)

-- ===========================================================================
-- JSON SCHEMA CLEANING (schema-cleaning.ts)
-- ===========================================================================

/-- `UNSUPPORTED_CONSTRAINTS` from schema-cleaning.ts. -/
def UNSUPPORTED_CONSTRAINTS : List String :=
  ["minLength", "maxLength", "exclusiveMinimum", "exclusiveMaximum",
   "pattern", "minItems", "maxItems", "format",
   "default", "examples"]

/-- `UNSUPPORTED_KEYWORDS` from schema-cleaning.ts. -/
def UNSUPPORTED_KEYWORDS : List String :=
  UNSUPPORTED_CONSTRAINTS ++
  ["$schema", "$defs", "definitions", "const", "$ref", "additionalProperties",
   "propertyNames", "title", "$id", "$comment"]

def EMPTY_SCHEMA_PLACEHOLDER_NAME : String := "_placeholder"
def EMPTY_SCHEMA_PLACEHOLDER_DESCRIPTION : String := "Placeholder. Always pass true."

/-- The `description` field's value when it is a string, else `""`
(`typeof schema.description === "string" ? schema.description : ""`). -/
def descString (fs : JFields) : String :=
  match objGet fs "description" with
  | some (.str d) => d
  | _ => ""

/-- `appendDescriptionHint` on an object's fields (the callers below hold the
spread copy `{...schema}` as a field list). -/
def appendHintF (fs : JFields) (hint : String) : JFields :=
  let existing := descString fs
  objSet fs "description" (.str (if existing ≠ "" then existing ++ " (" ++ hint ++ ")" else hint))

/-- `appendDescriptionHint` from schema-cleaning.ts: non-objects pass through;
spreading an array produces an index-keyed object. -/
def appendDescriptionHint (schema : JSON) (hint : String) : JSON :=
  match schema with
  | .obj fs => .obj (appendHintF fs hint)
  | .arr es => .obj (appendHintF (idxFields 0 es) hint)
  | s => s

/-- Phase 1a `convertRefsToHints` (fuelled): `$ref` with a string value becomes
`{type:"object", description:"See: <name>"}`; otherwise recurse into all
values. -/
def convertRefsToHintsF : Nat → JSON → JSON
  | 0, s => s
  | n+1, .arr es => .arr (es.map (fun e => convertRefsToHintsF n e))
  | n+1, .obj fs =>
      match objGet fs "$ref" with
      | some (.str refVal) =>
          let defName := if jsIncludes refVal "/" then lastSegmentAfterSlash refVal else refVal
          let hint := "See: " ++ defName
          let existingDesc := descString fs
          let newDescription := if existingDesc ≠ "" then existingDesc ++ " (" ++ hint ++ ")" else hint
          .obj [("type", .str "object"), ("description", .str newDescription)]
      | _ => .obj (fs.map (fun kv => (kv.1, convertRefsToHintsF n kv.2)))
  | _+1, s => s

def convertRefsToHints (schema : JSON) : JSON := convertRefsToHintsF (jsonSize schema) schema

/-- Phase 1b `convertConstToEnum` (fuelled): a `const` key becomes a
single-element `enum` when the schema has no truthy `enum`; built by keyed
assignment as in the source. -/
def convertConstToEnumF : Nat → JSON → JSON
  | 0, s => s
  | n+1, .arr es => .arr (es.map (fun e => convertConstToEnumF n e))
  | n+1, .obj fs =>
      let hasEnum := jsTruthyOpt (objGet fs "enum")
      .obj (fs.foldl
        (fun acc kv =>
          if kv.1 = "const" && !hasEnum then objSet acc "enum" (.arr [kv.2])
          else objSet acc kv.1 (convertConstToEnumF n kv.2))
        [])
  | _+1, s => s

def convertConstToEnum (schema : JSON) : JSON := convertConstToEnumF (jsonSize schema) schema

/-- Join for `enum.map((v) => String(v)).join(", ")`. -/
def jsJoin (sep : String) (vs : List JSON) : String :=
  String.intercalate sep (vs.map jsString)

/-- Phase 1c `addEnumHints` (fuelled): an enum of 2–10 values gains an
`Allowed: …` description hint; recursion skips the `enum` key and non-object
values. -/
def addEnumHintsF : Nat → JSON → JSON
  | 0, s => s
  | n+1, .arr es => .arr (es.map (fun e => addEnumHintsF n e))
  | n+1, .obj fs =>
      let r :=
        match objGet fs "enum" with
        | some (.arr vs) =>
            if 1 < vs.length && vs.length ≤ 10 then appendHintF fs ("Allowed: " ++ jsJoin ", " vs)
            else fs
        | _ => fs
      .obj (r.map (fun kv =>
        (kv.1, if kv.1 ≠ "enum" && isJsObject kv.2 then addEnumHintsF n kv.2 else kv.2)))
  | _+1, s => s

def addEnumHints (schema : JSON) : JSON := addEnumHintsF (jsonSize schema) schema

/-- Phase 1d `addAdditionalPropertiesHints` (fuelled). -/
def addAdditionalPropertiesHintsF : Nat → JSON → JSON
  | 0, s => s
  | n+1, .arr es => .arr (es.map (fun e => addAdditionalPropertiesHintsF n e))
  | n+1, .obj fs =>
      let r :=
        match objGet fs "additionalProperties" with
        | some (.bool false) => appendHintF fs "No extra properties allowed"
        | _ => fs
      .obj (r.map (fun kv =>
        (kv.1, if kv.1 ≠ "additionalProperties" && isJsObject kv.2
               then addAdditionalPropertiesHintsF n kv.2 else kv.2)))
  | _+1, s => s

def addAdditionalPropertiesHints (schema : JSON) : JSON :=
  addAdditionalPropertiesHintsF (jsonSize schema) schema

/-- `typeof v === "object"` (true for `null`, arrays and objects). -/
def typeofIsObject : JSON → Bool
  | .null => true
  | .arr _ => true
  | .obj _ => true
  | _ => false

/-- Constraint-to-hint folding inside `moveConstraintsToDescription`: for each
constraint keyword present with a non-object value, append `"kw: value"`. -/
def moveConstraintsFold : List String → JFields → JFields
  | [], fs => fs
  | c :: cs, fs =>
      let fs' :=
        match objGet fs c with
        | some v => if !typeofIsObject v then appendHintF fs (c ++ ": " ++ jsString v) else fs
        | none => fs
      moveConstraintsFold cs fs'

/-- Phase 1e `moveConstraintsToDescription` (fuelled). -/
def moveConstraintsToDescriptionF : Nat → JSON → JSON
  | 0, s => s
  | n+1, .arr es => .arr (es.map (fun e => moveConstraintsToDescriptionF n e))
  | n+1, .obj fs =>
      .obj ((moveConstraintsFold UNSUPPORTED_CONSTRAINTS fs).map (fun kv =>
        (kv.1, if isJsObject kv.2 then moveConstraintsToDescriptionF n kv.2 else kv.2)))
  | _+1, s => s

def moveConstraintsToDescription (schema : JSON) : JSON :=
  moveConstraintsToDescriptionF (jsonSize schema) schema

/-- The `allOf` member walk of `mergeAllOf`: accumulates the `merged` object
and the `mergedRequired` list. -/
def mergeAllOfItems (items : List JSON) : JFields × List JSON :=
  items.foldl
    (fun st item =>
      if !isJsObject item then st
      else
        let m := st.1
        let m1 :=
          match jGet item "properties" with
          | some p =>
              if isJsObject p then
                objSet m "properties"
                  (.obj (objMergeFields (spreadFields ((objGet m "properties").getD .null))
                                        (spreadFields p)))
              else m
          | none => m
        let mr1 :=
          match jGet item "required" with
          | some (.arr reqs) =>
              reqs.foldl (fun acc req => if jsIncludesVal acc req then acc else acc ++ [req]) st.2
          | _ => st.2
        let m2 := (spreadFields item).foldl
          (fun acc kv =>
            if kv.1 ≠ "properties" && kv.1 ≠ "required" && !objHas acc kv.1
            then objSet acc kv.1 kv.2 else acc)
          m1
        (m2, mr1))
    ([], [])

/-- Applying the merged `allOf` content to the enclosing schema's fields. -/
def mergeAllOfApply (fs : JFields) (items : List JSON) : JFields :=
  let st := mergeAllOfItems items
  let merged := st.1
  let mergedRequired := st.2
  let r1 :=
    if jsTruthyOpt (objGet merged "properties") then
      objSet fs "properties"
        (.obj (objMergeFields (spreadFields ((objGet fs "properties").getD .null))
                              (spreadFields ((objGet merged "properties").getD .null))))
    else fs
  let r2 :=
    if !mergedRequired.isEmpty then
      let existingRequired :=
        match objGet r1 "required" with
        | some (.arr ex) => ex
        | _ => []
      objSet r1 "required" (.arr (jsDedup (existingRequired ++ mergedRequired)))
    else r1
  let r3 := merged.foldl
    (fun acc kv =>
      if kv.1 ≠ "properties" && kv.1 ≠ "required" && !objHas acc kv.1
      then objSet acc kv.1 kv.2 else acc)
    r2
  objDel r3 "allOf"

/-- Phase 2a `mergeAllOf` (fuelled): merge the `allOf` members into the schema,
then recurse into all object values (as the source does, after the merge). -/
def mergeAllOfF : Nat → JSON → JSON
  | 0, s => s
  | n+1, .arr es => .arr (es.map (fun e => mergeAllOfF n e))
  | n+1, .obj fs =>
      let r :=
        match objGet fs "allOf" with
        | some (.arr items) => mergeAllOfApply fs items
        | _ => fs
      .obj (r.map (fun kv => (kv.1, if isJsObject kv.2 then mergeAllOfF n kv.2 else kv.2)))
  | _+1, s => s

def mergeAllOf (schema : JSON) : JSON := mergeAllOfF (jsonSize schema) schema

/-- `scoreSchemaOption` from schema-cleaning.ts: score and type name of a union
option. -/
def scoreSchemaOption (schema : JSON) : Int × JSON :=
  if !isJsObject schema then (0, .str "unknown")
  else
    let typeV := jGet schema "type"
    if (match typeV with | some t => isStrVal t "object" | none => false)
       || jsTruthyOpt (jGet schema "properties") then (3, .str "object")
    else if (match typeV with | some t => isStrVal t "array" | none => false)
       || jsTruthyOpt (jGet schema "items") then (2, .str "array")
    else
      match typeV with
      | some t =>
          if jsTruthy t && !isStrVal t "null" then (1, t)
          else (0, if jsTruthy t then t else .str "null")
      | none => (0, .str "null")

/-- The option walk of `tryMergeEnumFromUnion`: `none` models the early
`return null`, otherwise the accumulated enum values. -/
def tryMergeGo : List JSON → List String → Option (List String)
  | [], acc => some acc
  | o :: os, acc =>
      if !isJsObject o then none
      else
        match jGet o "const" with
        | some c => tryMergeGo os (acc ++ [jsString c])
        | none =>
            match jGet o "enum" with
            | some (.arr [v]) => tryMergeGo os (acc ++ [jsString v])
            | some (.arr (v :: vs)) => tryMergeGo os (acc ++ (v :: vs).map jsString)
            | _ =>
                if jsTruthyOpt (jGet o "properties") || jsTruthyOpt (jGet o "items")
                   || jsTruthyOpt (jGet o "anyOf") || jsTruthyOpt (jGet o "oneOf")
                   || jsTruthyOpt (jGet o "allOf") then none
                else if jsTruthyOpt (jGet o "type") && !jsTruthyOpt (jGet o "enum") then none
                else tryMergeGo os acc

/-- `tryMergeEnumFromUnion` from schema-cleaning.ts. -/
def tryMergeEnumFromUnion (options : List JSON) : Option (List String) :=
  if options.isEmpty then none
  else
    match tryMergeGo options [] with
    | none => none
    | some vals => if vals.length > 0 then some vals else none

/-- The `bestIdx` scan of `flattenAnyOfOneOf` (first index of the maximal
score, starting from score −1). -/
def bestIndexGo : List (Int × JSON) → Nat → Int → Nat → Nat
  | [], _, _, best => best
  | (s, _) :: rest, i, bestScore, best =>
      if s > bestScore then bestIndexGo rest (i + 1) s i
      else bestIndexGo rest (i + 1) bestScore best

def bestIndex (opts : List JSON) : Nat :=
  bestIndexGo (opts.map scoreSchemaOption) 0 (-1) 0

/-- One `unionKey` iteration of the loop in `flattenAnyOfOneOf`, parameterised
by the recursive call on the selected option. -/
def flattenUnionKey (rec : JSON → JSON) (unionKey : String) (fs : JFields) : JFields :=
  match objGet fs unionKey with
  | some (.arr opts) =>
      if opts.length > 0 then
        let parentDesc := descString fs
        match tryMergeEnumFromUnion opts with
        | some mergedEnum =>
            let rest := objDel fs unionKey
            let r := objSet (objSet rest "type" (.str "string")) "enum" (.arr (mergedEnum.map JSON.str))
            if parentDesc ≠ "" then objSet r "description" (.str parentDesc) else r
        | none =>
            let allTypes := ((opts.map (fun o => (scoreSchemaOption o).2)).filter jsTruthy)
            let selected0 := rec ((opts.getD (bestIndex opts) .null))
            let selected1 := if jsTruthy selected0 then selected0 else .obj [("type", .str "string")]
            let selected2 :=
              if parentDesc ≠ "" then
                let childDesc :=
                  match jGet selected1 "description" with
                  | some (.str d) => d
                  | _ => ""
                if childDesc ≠ "" && childDesc ≠ parentDesc then
                  .obj (objSet (spreadFields selected1) "description"
                        (.str (parentDesc ++ " (" ++ childDesc ++ ")")))
                else if childDesc = "" then
                  .obj (objSet (spreadFields selected1) "description" (.str parentDesc))
                else selected1
              else selected1
            let selected3 :=
              if allTypes.length > 1 then
                appendDescriptionHint selected2
                  ("Accepts: " ++ String.intercalate " | " ((jsDedup allTypes).map jsString))
              else selected2
            objMergeFields (objDel (objDel fs unionKey) "description") (spreadFields selected3)
      else fs
  | _ => fs

/-- Phase 2b `flattenAnyOfOneOf` (fuelled): enum-pattern unions collapse to a
string enum; otherwise the best-scoring option is flattened recursively and
merged over the schema, with `Accepts:` hints. -/
def flattenAnyOfOneOfF : Nat → JSON → JSON
  | 0, s => s
  | n+1, .arr es => .arr (es.map (fun e => flattenAnyOfOneOfF n e))
  | n+1, .obj fs =>
      let r := flattenUnionKey (flattenAnyOfOneOfF n) "oneOf"
                 (flattenUnionKey (flattenAnyOfOneOfF n) "anyOf" fs)
      .obj (r.map (fun kv => (kv.1, if isJsObject kv.2 then flattenAnyOfOneOfF n kv.2 else kv.2)))
  | _+1, s => s

def flattenAnyOfOneOf (schema : JSON) : JSON := flattenAnyOfOneOfF (jsonSize schema) schema

/-- The type-array rewrite at one node of `flattenTypeArrays`. -/
def flattenTypeStep (fs : JFields) : JFields :=
  match objGet fs "type" with
  | some (.arr types) =>
      let hasNull := jsIncludesVal types (.str "null")
      let nonNullTypes := types.filter (fun t => !jsStrictEq t (.str "null") && jsTruthy t)
      let firstType := if nonNullTypes.length > 0 then nonNullTypes.getD 0 .null else .str "string"
      let r1 := objSet fs "type" firstType
      let r2 :=
        if nonNullTypes.length > 1 then
          appendHintF r1 ("Accepts: " ++ String.intercalate " | " (nonNullTypes.map jsString))
        else r1
      if hasNull then appendHintF r2 "nullable" else r2
  | _ => fs

/-- Does a processed property record as nullable (object with a string
description containing "nullable")? -/
def isNullableProcessed (j : JSON) : Bool :=
  match j with
  | .obj fs =>
      match objGet fs "description" with
      | some (.str d) => jsIncludes d "nullable"
      | _ => false
  | _ => false

/-- Phase 2c `flattenTypeArrays`, non-root calls (fuelled): the shared
nullable-fields map entries written here are keyed by non-empty paths and are
never read (only the root path `""` is consulted, at the root call), so they
are not tracked. -/
def flattenTypeArraysRecF : Nat → JSON → JSON
  | 0, s => s
  | n+1, .arr es => .arr (es.map (fun e => flattenTypeArraysRecF n e))
  | n+1, .obj fs =>
      let r1 := flattenTypeStep fs
      let r2 :=
        match objGet r1 "properties" with
        | some p =>
            if jsTruthy p && typeofIsObject p then
              objSet r1 "properties"
                (.obj ((spreadFields p).map (fun (kv : String × JSON) =>
                  (kv.1, flattenTypeArraysRecF n kv.2))))
            else r1
        | none => r1
      .obj (r2.map (fun (kv : String × JSON) =>
        (kv.1, if kv.1 ≠ "properties" && isJsObject kv.2 then flattenTypeArraysRecF n kv.2 else kv.2)))
  | _+1, s => s

/-- Phase 2c `flattenTypeArrays`, root call (fuelled): in addition to the
rewrite, properties that became nullable at the root are dropped from the root
`required` array (`delete` when it empties).  A root-level array maps the root
call over its elements (`nullableFields` stays `undefined`). -/
def flattenTypeArraysF : Nat → JSON → JSON
  | 0, s => s
  | n+1, .arr es => .arr (es.map (fun e => flattenTypeArraysF n e))
  | n+1, .obj fs =>
      let r1 := flattenTypeStep fs
      let pr :=
        match objGet r1 "properties" with
        | some p =>
            if jsTruthy p && typeofIsObject p then
              let processed := (spreadFields p).map (fun (kv : String × JSON) =>
                (kv.1, flattenTypeArraysRecF n kv.2))
              (objSet r1 "properties" (.obj processed),
               (processed.filter (fun (kv : String × JSON) => isNullableProcessed kv.2)).map
                 (fun (kv : String × JSON) => kv.1))
            else (r1, [])
        | none => (r1, [])
      let r2 := pr.1
      let nullableAtRoot := pr.2
      let r3 :=
        match objGet r2 "required" with
        | some (.arr reqs) =>
            if nullableAtRoot ≠ [] then
              let filtered := reqs.filter (fun r => !(nullableAtRoot.any (fun s => jsStrictEq r (.str s))))
              if filtered.length = 0 then objDel r2 "required"
              else objSet r2 "required" (.arr filtered)
            else r2
        | _ => r2
      .obj (r3.map (fun kv =>
        (kv.1, if kv.1 ≠ "properties" && isJsObject kv.2 then flattenTypeArraysRecF n kv.2 else kv.2)))
  | _+1, s => s

def flattenTypeArrays (schema : JSON) : JSON := flattenTypeArraysF (jsonSize schema) schema

/-- Phase 3 `removeUnsupportedKeywords` (fuelled): unsupported keyword keys are
dropped; keys under a `properties` object are property names and survive. -/
def removeUnsupportedKeywordsF : Nat → JSON → JSON
  | 0, s => s
  | n+1, .arr es => .arr (es.map (fun e => removeUnsupportedKeywordsF n e))
  | n+1, .obj fs =>
      .obj (fs.foldl
        (fun (acc : JFields) (kv : String × JSON) =>
          if UNSUPPORTED_KEYWORDS.contains kv.1 then acc
          else if isJsObject kv.2 then
            if kv.1 = "properties" then
              objSet acc kv.1 (.obj ((spreadFields kv.2).map
                (fun p => (p.1, removeUnsupportedKeywordsF n p.2))))
            else objSet acc kv.1 (removeUnsupportedKeywordsF n kv.2)
          else objSet acc kv.1 kv.2)
        [])
  | _+1, s => s

def removeUnsupportedKeywords (schema : JSON) : JSON :=
  removeUnsupportedKeywordsF (jsonSize schema) schema

/-- Own-property test `Object.prototype.hasOwnProperty.call(v, key)` for the
values reaching it here (objects and arrays; an array's `length` own property
is not modelled, no `required` entry is ever the string "length" in the
developments below). -/
def hasOwnKey (j : JSON) (key : String) : Bool :=
  (spreadFields j).any (fun kv => kv.1 = key)

/-- Phase 3b `cleanupRequiredFields` (fuelled). -/
def cleanupRequiredFieldsF : Nat → JSON → JSON
  | 0, s => s
  | n+1, .arr es => .arr (es.map (fun e => cleanupRequiredFieldsF n e))
  | n+1, .obj fs =>
      let r :=
        match objGet fs "required", objGet fs "properties" with
        | some (.arr reqs), some p =>
            if jsTruthy p && typeofIsObject p then
              let validRequired := reqs.filter (fun req => hasOwnKey p (jsString req))
              if validRequired.length = 0 then objDel fs "required"
              else if validRequired.length ≠ reqs.length then objSet fs "required" (.arr validRequired)
              else fs
            else fs
        | _, _ => fs
      .obj (r.map (fun (kv : String × JSON) =>
        (kv.1, if isJsObject kv.2 then cleanupRequiredFieldsF n kv.2 else kv.2)))
  | _+1, s => s

def cleanupRequiredFields (schema : JSON) : JSON :=
  cleanupRequiredFieldsF (jsonSize schema) schema

/-- Phase 4 `addEmptySchemaPlaceholder` (fuelled): an `object`-typed schema with
no (or empty, or non-object) `properties` gains the placeholder boolean
property and `required: [placeholder]`. -/
def addEmptySchemaPlaceholderF : Nat → JSON → JSON
  | 0, s => s
  | n+1, .arr es => .arr (es.map (fun e => addEmptySchemaPlaceholderF n e))
  | n+1, .obj fs =>
      let isObjectType :=
        match objGet fs "type" with
        | some t => isStrVal t "object"
        | none => false
      let hasProperties :=
        match objGet fs "properties" with
        | some p => jsTruthy p && typeofIsObject p && (spreadFields p).length > 0
        | none => false
      let r :=
        if isObjectType && !hasProperties then
          objSet (objSet fs "properties"
            (.obj [(EMPTY_SCHEMA_PLACEHOLDER_NAME,
                    .obj [("type", .str "boolean"),
                          ("description", .str EMPTY_SCHEMA_PLACEHOLDER_DESCRIPTION)])]))
            "required" (.arr [.str EMPTY_SCHEMA_PLACEHOLDER_NAME])
        else fs
      .obj (r.map (fun kv => (kv.1, if isJsObject kv.2 then addEmptySchemaPlaceholderF n kv.2 else kv.2)))
  | _+1, s => s

def addEmptySchemaPlaceholder (schema : JSON) : JSON :=
  addEmptySchemaPlaceholderF (jsonSize schema) schema

/-- `cleanJSONSchemaForAntigravity` from schema-cleaning.ts: the full pipeline
(non-objects pass through unchanged). -/
def cleanJSONSchemaForAntigravity (schema : JSON) : JSON :=
  if !isJsObject schema then schema
  else
    let r := convertRefsToHints schema
    let r := convertConstToEnum r
    let r := addEnumHints r
    let r := addAdditionalPropertiesHints r
    let r := moveConstraintsToDescription r
    let r := mergeAllOf r
    let r := flattenAnyOfOneOf r
    let r := flattenTypeArrays r
    let r := removeUnsupportedKeywords r
    let r := cleanupRequiredFields r
    addEmptySchemaPlaceholder r

-- ===========================================================================
-- MODEL RESOLUTION (transform/model-resolver.ts) and claude.ts helpers
-- ===========================================================================

/-- `isClaudeModel` from transform/claude.ts. -/
def isClaudeModel (model : String) : Bool := jsIncludes (jsToLower model) "claude"

/-- `isClaudeThinkingModel` from transform/claude.ts. -/
def isClaudeThinkingModel (model : String) : Bool :=
  jsIncludes (jsToLower model) "claude" && jsIncludes (jsToLower model) "thinking"

/-- `ResolvedModel` from transform/types.ts. -/
structure ResolvedModel where
  actualModel : String
  thinkingLevel : Option String := none
  thinkingBudget : Option Int := none
  tier : Option String := none
  isThinkingModel : Bool := false
  quotaPreference : String
  explicitQuota : Bool
deriving Repr, DecidableEq

def tableGet : List (String × String) → String → Option String
  | [], _ => none
  | (k, v) :: tbl, key => if k = key then some v else tableGet tbl key

/-- JavaScript `a || b` on an optional string (an empty string is falsy). -/
def jsOrStr (a : Option String) (b : String) : String :=
  match a with
  | some s => if s ≠ "" then s else b
  | none => b

/-- `MODEL_ALIASES` from model-resolver.ts. -/
def MODEL_ALIASES : List (String × String) :=
  [("gemini-3-pro-low", "gemini-3-pro"),
   ("gemini-3-pro-high", "gemini-3-pro"),
   ("gemini-3-flash-low", "gemini-3-flash"),
   ("gemini-3-flash-medium", "gemini-3-flash"),
   ("gemini-3-flash-high", "gemini-3-flash"),
   ("gemini-claude-sonnet-4-5", "claude-sonnet-4-5"),
   ("gemini-claude-sonnet-4-5-thinking-low", "claude-sonnet-4-5-thinking"),
   ("gemini-claude-sonnet-4-5-thinking-medium", "claude-sonnet-4-5-thinking"),
   ("gemini-claude-sonnet-4-5-thinking-high", "claude-sonnet-4-5-thinking"),
   ("gemini-claude-opus-4-5-thinking-low", "claude-opus-4-5-thinking"),
   ("gemini-claude-opus-4-5-thinking-medium", "claude-opus-4-5-thinking"),
   ("gemini-claude-opus-4-5-thinking-high", "claude-opus-4-5-thinking"),
   ("gemini-3-pro-image-preview", "gemini-3-pro-image")]

/-- `MODEL_FALLBACKS` from model-resolver.ts. -/
def MODEL_FALLBACKS : List (String × String) :=
  [("gemini-2.5-flash-image", "gemini-2.5-flash")]

/-- The case-insensitive quota marker test `QUOTA_PREFIX_REGEX.test(m)`. -/
def hasAntigravityQuota (s : String) : Bool := strStartsWith (jsToLower s) "antigravity-"

/-- `m.replace(QUOTA_PREFIX_REGEX, "")`. -/
def stripQuota (s : String) : String := if hasAntigravityQuota s then s.drop 12 else s

/-- `supportsThinkingTiers` from model-resolver.ts. -/
def supportsThinkingTiers (model : String) : Bool :=
  let lower := jsToLower model
  jsIncludes lower "gemini-3" || jsIncludes lower "gemini-2.5" ||
    (jsIncludes lower "claude" && jsIncludes lower "thinking")

/-- The match of `TIER_REGEX` = `-(minimal|low|medium|high)$`; the four
suffixes end in distinct characters, so at most one can match. -/
def tierMatch (model : String) : Option String :=
  if strEndsWith model "-minimal" then some "minimal"
  else if strEndsWith model "-low" then some "low"
  else if strEndsWith model "-medium" then some "medium"
  else if strEndsWith model "-high" then some "high"
  else none

/-- `extractThinkingTierFromModel` from model-resolver.ts. -/
def extractThinkingTierFromModel (model : String) : Option String :=
  if !supportsThinkingTiers model then none
  else tierMatch model

/-- `m.replace(TIER_REGEX, "")`. -/
def stripTier (model : String) : String :=
  if strEndsWith model "-minimal" then model.dropRight 8
  else if strEndsWith model "-low" then model.dropRight 4
  else if strEndsWith model "-medium" then model.dropRight 7
  else if strEndsWith model "-high" then model.dropRight 5
  else model

/-- `getBudgetFamily` from model-resolver.ts (note: no lower-casing there). -/
def getBudgetFamily (model : String) : String :=
  if jsIncludes model "claude" then "claude"
  else if jsIncludes model "gemini-2.5-pro" then "gemini-2.5-pro"
  else if jsIncludes model "gemini-2.5-flash" then "gemini-2.5-flash"
  else "default"

/-- `THINKING_TIER_BUDGETS[family][tier]` from model-resolver.ts (the callers
only look up the tiers low/medium/high). -/
def budgetFor (family tier : String) : Int :=
  if family = "claude" || family = "gemini-2.5-pro" then
    if tier = "low" then 8192 else if tier = "medium" then 16384 else 32768
  else if family = "gemini-2.5-flash" then
    if tier = "low" then 6144 else if tier = "medium" then 12288 else 24576
  else
    if tier = "low" then 4096 else if tier = "medium" then 8192 else 16384

/-- `isThinkingCapableModel` from model-resolver.ts. -/
def isThinkingCapableModel (model : String) : Bool :=
  let lower := jsToLower model
  jsIncludes lower "thinking" || jsIncludes lower "gemini-3" || jsIncludes lower "gemini-2.5"

/-- The `actualModel`/fallback computation of `resolveModelWithTier` (lines up
to the `MODEL_FALLBACKS` lookup), factored out so theorems can hypothesise on
the resolved name. -/
def resolvedModelOf (requestedModel : String) : String :=
  let isAntigravity := hasAntigravityQuota requestedModel
  let modelWithoutQuota := stripQuota requestedModel
  let tier := extractThinkingTierFromModel modelWithoutQuota
  let baseName := if tier.isSome then stripTier modelWithoutQuota else modelWithoutQuota
  let isGemini3 := strStartsWith (jsToLower modelWithoutQuota) "gemini-3"
  let skipAlias := isAntigravity && isGemini3
  let isGemini3Pro := strStartsWith (jsToLower modelWithoutQuota) "gemini-3-pro"
  let isGemini3Flash := strStartsWith (jsToLower modelWithoutQuota) "gemini-3-flash"
  let antigravityModel :=
    if skipAlias then
      if isGemini3Pro && tier.isNone then modelWithoutQuota ++ "-low"
      else if isGemini3Flash && tier.isSome then baseName
      else modelWithoutQuota
    else modelWithoutQuota
  let actualModel :=
    if skipAlias then antigravityModel
    else jsOrStr (tableGet MODEL_ALIASES modelWithoutQuota)
           (jsOrStr (tableGet MODEL_ALIASES baseName) baseName)
  jsOrStr (tableGet MODEL_FALLBACKS actualModel) actualModel

/-- `resolveModelWithTier` from model-resolver.ts. -/
def resolveModelWithTier (requestedModel : String) : ResolvedModel :=
  let isAntigravity := hasAntigravityQuota requestedModel
  let modelWithoutQuota := stripQuota requestedModel
  let tier := extractThinkingTierFromModel modelWithoutQuota
  let isAntigravityOnly :=
    strStartsWith (jsToLower modelWithoutQuota) "claude" ||
      strStartsWith (jsToLower modelWithoutQuota) "gpt"
  let quotaPreference := if isAntigravity || isAntigravityOnly then "antigravity" else "gemini-cli"
  let explicitQuota := isAntigravity
  let resolvedModel := resolvedModelOf requestedModel
  let isThinking := isThinkingCapableModel resolvedModel
  let isEffectiveGemini3 := jsIncludes (jsToLower resolvedModel) "gemini-3"
  let isClaudeThinking :=
    jsIncludes (jsToLower resolvedModel) "claude" && jsIncludes (jsToLower resolvedModel) "thinking"
  match tier with
  | none =>
      if isEffectiveGemini3 then
        { actualModel := resolvedModel, thinkingLevel := some "low", isThinkingModel := true,
          quotaPreference := quotaPreference, explicitQuota := explicitQuota }
      else if isClaudeThinking then
        { actualModel := resolvedModel, thinkingBudget := some (budgetFor "claude" "high"),
          isThinkingModel := true,
          quotaPreference := quotaPreference, explicitQuota := explicitQuota }
      else
        { actualModel := resolvedModel, isThinkingModel := isThinking,
          quotaPreference := quotaPreference, explicitQuota := explicitQuota }
  | some t =>
      if isEffectiveGemini3 then
        { actualModel := resolvedModel, thinkingLevel := some t, tier := some t,
          isThinkingModel := true,
          quotaPreference := quotaPreference, explicitQuota := explicitQuota }
      else
        let budgetFamily := getBudgetFamily resolvedModel
        let budgetTier := if t = "minimal" then "low" else t
        { actualModel := resolvedModel, thinkingBudget := some (budgetFor budgetFamily budgetTier),
          tier := some t, isThinkingModel := isThinking,
          quotaPreference := quotaPreference, explicitQuota := explicitQuota }

-- ===========================================================================
-- MESSAGE CONVERSION (provider.ts: toTextParts, convertMessages)
-- ===========================================================================

/-- Message roles.  The conversion treats the string role `"system"` specially;
every other non-assistant role is sent as `"user"`. -/
inductive MsgRole where
  | system
  | user
  | assistant
deriving Repr, DecidableEq

/-- An abstract input part (`vscode.LanguageModelTextPart`,
`…ToolCallPart{callId,name,input}`, `…ToolResultPart{callId,content}`, or any
other part, which the converter ignores). -/
inductive InputPart where
  | text (value : String)
  | toolCall (callId name : String) (input : Option JSON)
  | toolResult (callId : String) (content : List InputPart)
  | other
deriving Repr

structure ChatMessage where
  role : MsgRole
  content : List InputPart
deriving Repr

/-- `toTextParts` from provider.ts: text part values, empties filtered, joined
with the empty separator. -/
def toTextParts (content : List InputPart) : String :=
  String.join ((content.map (fun p => match p with | .text v => v | _ => "")).filter
    (fun v => v ≠ ""))

/-- JavaScript `Map.prototype.set`: update in place or append. -/
def mapSet : List (String × String) → String → String → List (String × String)
  | [], k, v => [(k, v)]
  | (a, b) :: m, k, v => if a = k then (a, v) :: m else (a, b) :: mapSet m k v

/-- The `functionCall` wire part built for a tool-call input part in
`convertMessages`: the per-call-id signature if the cache holds one, else (only
when fallback attachment is allowed) the session fallback; a falsy (empty)
signature attaches nothing. -/
def toolCallWirePart (signatureByCallId : String → Option String)
    (fallbackSignature : Option String) (allowFallbackSignature : Bool)
    (callId name : String) (input : Option JSON) : JSON :=
  let signature : Option String :=
    match signatureByCallId callId with
    | some s => some s
    | none => if allowFallbackSignature then fallbackSignature else none
  let args : JSON :=
    match input with
    | some .null => .obj []
    | some v => v
    | none => .obj []
  .obj (("functionCall", .obj [("name", .str name), ("args", args), ("id", .str callId)]) ::
        (match signature with
         | some s => if s ≠ "" then [("thoughtSignature", .str s)] else []
         | none => []))

/-- The `functionResponse` wire part built for a tool-result input part. -/
def toolResultWirePart (name callId contentText : String) : JSON :=
  .obj [("functionResponse",
         .obj [("name", .str name), ("id", .str callId),
               ("response", if contentText ≠ "" then .obj [("content", .str contentText)] else .obj [])])]

structure PartsAcc where
  toolNameById : List (String × String)
  parts : List JSON
  toolResultParts : List JSON
deriving Repr

/-- The inner part loop of `convertMessages` for one non-system message:
threads the `toolNameById` map and accumulates the wire `parts` and the
deferred `toolResultParts`. -/
def processParts (signatureByCallId : String → Option String)
    (fallbackSignature : Option String) (allowToolHistory allowFallbackSignature : Bool)
    (role : String) : List (String × String) → List InputPart → PartsAcc
  | names, [] => ⟨names, [], []⟩
  | names, p :: ps =>
    match p with
    | .text v =>
        let rest := processParts signatureByCallId fallbackSignature allowToolHistory
          allowFallbackSignature role names ps
        if v ≠ "" then { rest with parts := .obj [("text", .str v)] :: rest.parts } else rest
    | .toolCall callId name input =>
        if !allowToolHistory then
          processParts signatureByCallId fallbackSignature allowToolHistory
            allowFallbackSignature role names ps
        else
          let rest := processParts signatureByCallId fallbackSignature allowToolHistory
            allowFallbackSignature role (mapSet names callId name) ps
          { rest with parts :=
              (toolCallWirePart signatureByCallId fallbackSignature allowFallbackSignature
                callId name input) :: rest.parts }
    | .toolResult callId content =>
        if !allowToolHistory then
          processParts signatureByCallId fallbackSignature allowToolHistory
            allowFallbackSignature role names ps
        else
          let name := (tableGet names callId).getD "tool"
          let contentText := String.intercalate "\n"
            ((content.map (fun item => match item with | .text v => v | _ => "")).filter
              (fun v => v ≠ ""))
          let resp := toolResultWirePart name callId contentText
          let rest := processParts signatureByCallId fallbackSignature allowToolHistory
            allowFallbackSignature role names ps
          if role = "model" then { rest with toolResultParts := resp :: rest.toolResultParts }
          else { rest with parts := resp :: rest.parts }
    | .other =>
        processParts signatureByCallId fallbackSignature allowToolHistory
          allowFallbackSignature role names ps

/-- A wire turn `{role, parts}`. -/
def mkContent (role : String) (parts : List JSON) : JSON :=
  .obj [("role", .str role), ("parts", .arr parts)]

structure ConvertedMessages where
  contents : List JSON
  systemInstruction : Option JSON
deriving Repr

/-- The message loop of `convertMessages`: returns the wire contents and the
collected system texts, threading `toolNameById` across messages. -/
def convertMessagesGo (signatureByCallId : String → Option String)
    (fallbackSignature : Option String) (allowToolHistory allowFallbackSignature : Bool) :
    List (String × String) → List ChatMessage → List JSON × List String
  | _, [] => ([], [])
  | names, m :: ms =>
    match m.role with
    | .system =>
        let text := toTextParts m.content
        let rest := convertMessagesGo signatureByCallId fallbackSignature allowToolHistory
          allowFallbackSignature names ms
        (rest.1, if text ≠ "" then text :: rest.2 else rest.2)
    | r =>
        let role := if r = .assistant then "model" else "user"
        let acc := processParts signatureByCallId fallbackSignature allowToolHistory
          allowFallbackSignature role names m.content
        let contrib :=
          (if !acc.parts.isEmpty then [mkContent role acc.parts] else []) ++
          (if !acc.toolResultParts.isEmpty then [mkContent "user" acc.toolResultParts] else [])
        let rest := convertMessagesGo signatureByCallId fallbackSignature allowToolHistory
          allowFallbackSignature acc.toolNameById ms
        (contrib ++ rest.1, rest.2)

/-- `convertMessages` from provider.ts. -/
def convertMessages (messages : List ChatMessage) (signatureByCallId : String → Option String)
    (fallbackSignature : Option String) (allowToolHistory : Bool := true)
    (allowFallbackSignature : Bool := true) : ConvertedMessages :=
  let r := convertMessagesGo signatureByCallId fallbackSignature allowToolHistory
    allowFallbackSignature [] messages
  { contents := r.1,
    systemInstruction :=
      if !r.2.isEmpty then
        some (.obj [("parts", .arr (r.2.map (fun t => .obj [("text", .str t)])))])
      else none }

-- ===========================================================================
-- TOOL-CALL/RESPONSE PAIRING (provider.ts: enforceGeminiToolPairing)
-- ===========================================================================

def hasToolCallsIn (ps : List JSON) : Bool :=
  ps.any (fun p => jsTruthyOpt (jGet p "functionCall"))

/-- Collect the call (or response) ids of the parts into an insertion-ordered
set: a truthy string `id` under the given key. -/
def collectIds (key : String) (ps : List JSON) : List String :=
  ps.foldl
    (fun acc p =>
      match jGet p key with
      | some c =>
          match jGet c "id" with
          | some (.str i) => if i ≠ "" && !acc.contains i then acc ++ [i] else acc
          | _ => acc
      | none => acc)
    []

/-- `{...content, parts}`. -/
def setParts (c : JSON) (ps : List JSON) : JSON :=
  .obj (objSet (spreadFields c) "parts" (.arr ps))

/-- The model-side filter: keep non-call parts and calls whose id is matched. -/
def matchedFilterCall (matched : List String) (p : JSON) : Bool :=
  match jGet p "functionCall" with
  | some fc =>
      if !jsTruthy fc then true
      else
        match jGet fc "id" with
        | some (.str i) => matched.contains i
        | _ => false
  | none => true

/-- The user-side filter: keep non-response parts and responses whose id is
matched. -/
def matchedFilterResp (matched : List String) (p : JSON) : Bool :=
  match jGet p "functionResponse" with
  | some fr =>
      if !jsTruthy fr then true
      else
        match jGet fr "id" with
        | some (.str i) => matched.contains i
        | _ => false
  | none => true

/-- `enforceGeminiToolPairing` from provider.ts, as the pure function the
in-place `splice` realises: a `model` turn with tool calls pairs against the
immediately following `user` turn by id; matched pairs are kept (empty turns
dropped), and without any adjacent match all calls are stripped from the model
turn. -/
def enforceGeminiToolPairing : List JSON → List JSON
  | [] => []
  | current :: rest =>
      match jGet current "parts" with
      | some (.arr ps) =>
          if hasToolCallsIn ps &&
             (match jGet current "role" with | some r => isStrVal r "model" | none => false) then
            let nextParts :=
              match rest.head? with
              | some next => match jGet next "parts" with | some (.arr nps) => nps | _ => []
              | none => []
            let callIds := collectIds "functionCall" ps
            let responseIds := collectIds "functionResponse" nextParts
            let matchedIds := callIds.filter (fun i => responseIds.contains i)
            let nextIsUser :=
              match rest.head? with
              | some next => match jGet next "role" with | some r => isStrVal r "user" | none => false
              | none => false
            if !matchedIds.isEmpty && nextIsUser then
              match rest with
              | next :: restTail =>
                  let filteredModelParts := ps.filter (matchedFilterCall matchedIds)
                  let filteredUserParts := nextParts.filter (matchedFilterResp matchedIds)
                  (if !filteredModelParts.isEmpty then [setParts current filteredModelParts] else []) ++
                  (if !filteredUserParts.isEmpty then [setParts next filteredUserParts] else []) ++
                  enforceGeminiToolPairing restTail
              | [] => []
            else
              let nonToolParts := ps.filter (fun p => !jsTruthyOpt (jGet p "functionCall"))
              (if !nonToolParts.isEmpty then [setParts current nonToolParts] else []) ++
              enforceGeminiToolPairing rest
          else current :: enforceGeminiToolPairing rest
      | _ => current :: enforceGeminiToolPairing rest

-- ===========================================================================
-- RESPONSE TRANSLATION (provider.ts: handleResponseParts)
-- ===========================================================================

/-- `ThoughtSignatureCache` from provider.ts. -/
structure ThoughtSignatureCache where
  text : String
  signature : String
deriving Repr, DecidableEq

/-- An abstract response part reported to the caller. -/
inductive ResponsePart where
  | text (value : String)
  | toolCall (callId name : String) (args : JSON)
deriving Repr

structure ThoughtState where
  buffer : String
  cache : Option ThoughtSignatureCache
deriving Repr

/-- The state threaded through `handleResponseParts`: the synthetic call-id
seed, the thought accumulator/cache, and the per-call-id signature sink. -/
structure TranslateState where
  callIdSeed : Nat
  thought : ThoughtState
  toolSignatureSink : List (String × String)
deriving Repr

def isStrValOpt (o : Option JSON) (s : String) : Bool :=
  match o with
  | some v => isStrVal v s
  | none => false

/-- `part.thought === true || part.type === "thinking" || part.type === "reasoning"`. -/
def isThoughtPart (p : JSON) : Bool :=
  (match jGet p "thought" with | some (.bool true) => true | _ => false)
  || isStrValOpt (jGet p "type") "thinking"
  || isStrValOpt (jGet p "type") "reasoning"

/-- `part.metadata?.google?.thoughtSignature`. -/
def metaSignature (p : JSON) : Option JSON :=
  match jGet p "metadata" with
  | some m =>
      match jGet m "google" with
      | some g => jGet g "thoughtSignature"
      | none => none
  | none => none

/-- The signature selection chain used for both thought parts and function
calls: `thoughtSignature` string, else `signature` string, else the metadata
signature string. -/
def partSignature (p : JSON) : Option String :=
  match jGet p "thoughtSignature" with
  | some (.str s) => some s
  | _ =>
      match jGet p "signature" with
      | some (.str s) => some s
      | _ =>
          match metaSignature p with
          | some (.str s) => some s
          | _ => none

/-- One part step of `handleResponseParts`. -/
def handlePart (st : TranslateState) (p : JSON) : TranslateState × List ResponsePart :=
  if isThoughtPart p then
    let text :=
      match jGet p "text" with
      | some (.str t) => t
      | _ => match jGet p "thinking" with | some (.str t) => t | _ => ""
    let bufferNew := if text ≠ "" then st.thought.buffer ++ text else st.thought.buffer
    let cacheNew :=
      match partSignature p with
      | some sg =>
          if sg ≠ "" then
            let fullText := if bufferNew ≠ "" then bufferNew else text
            if fullText ≠ "" then some ⟨fullText, sg⟩ else st.thought.cache
          else st.thought.cache
      | none => st.thought.cache
    ({ st with thought := ⟨bufferNew, cacheNew⟩ }, [])
  else
    match jGet p "text" with
    | some (.str t) => (st, [.text t])
    | _ =>
        match jGet p "functionCall" with
        | some fc =>
            if jsTruthy fc && isJsObject fc then
              let hasId := match jGet fc "id" with | some (.str i) => i != "" | _ => false
              let seedNew := if hasId then st.callIdSeed else st.callIdSeed + 1
              let callId :=
                match jGet fc "id" with
                | some (.str i) => if i ≠ "" then i else "tool-call-" ++ toString seedNew
                | _ => "tool-call-" ++ toString seedNew
              let name := match jGet fc "name" with | some (.str nm) => nm | _ => "tool"
              let args :=
                match jGet fc "args" with
                | some .null => JSON.obj []
                | some v => v
                | none => JSON.obj []
              let sg? := partSignature p
              let thoughtNew :=
                match sg? with
                | some sg =>
                    if sg ≠ "" then
                      { buffer := st.thought.buffer,
                        cache := some ⟨st.thought.buffer, sg⟩ }
                    else st.thought
                | none => st.thought
              let sinkNew :=
                match sg? with
                | some sg =>
                    if sg ≠ "" && callId ≠ "" then mapSet st.toolSignatureSink callId sg
                    else st.toolSignatureSink
                | none => st.toolSignatureSink
              ({ callIdSeed := seedNew, thought := thoughtNew, toolSignatureSink := sinkNew },
               [.toolCall callId name args])
            else (st, [])
        | none => (st, [])

def handleParts (st : TranslateState) (ps : List JSON) : TranslateState × List ResponsePart :=
  ps.foldl
    (fun acc p =>
      let r := handlePart acc.1 p
      (r.1, acc.2 ++ r.2))
    (st, [])

/-- `handleResponseParts` from provider.ts: walk `response.candidates[*]
.content.parts` in order, translating parts and updating the state. -/
def handleResponseParts (response : JSON) (st : TranslateState) :
    TranslateState × List ResponsePart :=
  match jGet response "candidates" with
  | some (.arr cands) =>
      cands.foldl
        (fun acc cand =>
          match jGet cand "content" with
          | some content =>
              match jGet content "parts" with
              | some (.arr ps) =>
                  let r := handleParts acc.1 ps
                  (r.1, acc.2 ++ r.2)
              | _ => acc
          | none => acc)
        (st, [])
  | _ => (st, [])

-- ===========================================================================
-- STREAMING (provider.ts: streamResponse) — line splitting, JSON.parse model
-- ===========================================================================

def openBraceChar : Char := Char.ofNat 123
def closeBraceChar : Char := Char.ofNat 125

def jsonWsChar (c : Char) : Bool := c = ' ' || c = '\t' || c = '\n' || c = '\r'

def skipWsP (cs : List Char) : List Char := cs.dropWhile jsonWsChar

def hexDigitVal (c : Char) : Option Nat :=
  let n := c.toNat
  if 48 ≤ n ∧ n ≤ 57 then some (n - 48)
  else if 97 ≤ n ∧ n ≤ 102 then some (n - 87)
  else if 65 ≤ n ∧ n ≤ 70 then some (n - 55)
  else none

def unescapeChar (c : Char) : Option Char :=
  if c = '\"' ∨ c = '\\' ∨ c = '/' then some c
  else if c = 'n' then some (Char.ofNat 10)
  else if c = 'r' then some (Char.ofNat 13)
  else if c = 't' then some (Char.ofNat 9)
  else if c = 'b' then some (Char.ofNat 8)
  else if c = 'f' then some (Char.ofNat 12)
  else none

/-- String-literal body parser (after the opening quote), fuelled. -/
def parseStrBody : Nat → List Char → List Char → Option (String × List Char)
  | 0, _, _ => none
  | fuel+1, acc, cs =>
      match cs with
      | [] => none
      | c :: rest =>
          if c = '\"' then some (String.mk acc.reverse, rest)
          else if c = '\\' then
            match rest with
            | 'u' :: a :: b :: c2 :: d :: rest2 =>
                match hexDigitVal a, hexDigitVal b, hexDigitVal c2, hexDigitVal d with
                | some va, some vb, some vc, some vd =>
                    parseStrBody fuel (Char.ofNat (((va * 16 + vb) * 16 + vc) * 16 + vd) :: acc) rest2
                | _, _, _, _ => none
            | e :: rest2 =>
                match unescapeChar e with
                | some ch => parseStrBody fuel (ch :: acc) rest2
                | none => none
            | [] => none
          else parseStrBody fuel (c :: acc) rest

def digitsToNat (ds : List Char) : Nat :=
  ds.foldl (fun acc c => 10 * acc + (c.toNat - 48)) 0

/-- Integer JSON number parser.  JSON numbers are modelled as integers here;
fraction/exponent forms are not produced by the events the claims concern. -/
def parseIntNum (cs : List Char) : Option (JSON × List Char) :=
  let negRest : Bool × List Char := match cs with | '-' :: r => (true, r) | _ => (false, cs)
  let ds := negRest.2.takeWhile (fun c => c.isDigit)
  let rest := negRest.2.dropWhile (fun c => c.isDigit)
  if ds.isEmpty then none
  else
    let n : Int := (digitsToNat ds : Nat)
    some (.num (if negRest.1 then -n else n), rest)

mutual
/-- A model of `JSON.parse`'s grammar, fuelled (structural on the fuel like the
recursive-descent parser it models); duplicate object keys overwrite in place
(last value wins at the first position), as in JavaScript. -/
def parseValueP : Nat → List Char → Option (JSON × List Char)
  | 0, _ => none
  | fuel+1, cs =>
      let ws := skipWsP cs
      if startsWithList ws ("null".toList) then some (.null, ws.drop 4)
      else if startsWithList ws ("true".toList) then some (.bool true, ws.drop 4)
      else if startsWithList ws ("false".toList) then some (.bool false, ws.drop 5)
      else
      match ws with
      | c :: r =>
          if c = '\"' then
            match parseStrBody (fuel+1) [] r with
            | some sr => some (.str sr.1, sr.2)
            | none => none
          else if c = '[' then
            match skipWsP r with
            | ']' :: r2 => some (.arr [], r2)
            | r2 => match parseElemsP fuel r2 with
                    | some er => some (.arr er.1, er.2)
                    | none => none
          else if c = openBraceChar then
            match skipWsP r with
            | c2 :: r2 =>
                if c2 = closeBraceChar then some (.obj [], r2)
                else match parseMembersP fuel [] (c2 :: r2) with
                     | some mr => some (.obj mr.1, mr.2)
                     | none => none
            | [] => none
          else if c = '-' || c.isDigit then parseIntNum (c :: r)
          else none
      | [] => none

def parseElemsP : Nat → List Char → Option (List JSON × List Char)
  | 0, _ => none
  | fuel+1, cs =>
      match parseValueP fuel cs with
      | some (v, r) =>
          match skipWsP r with
          | ',' :: r2 =>
              match parseElemsP fuel r2 with
              | some (vs, r3) => some (v :: vs, r3)
              | none => none
          | ']' :: r2 => some ([v], r2)
          | _ => none
      | none => none

def parseMembersP : Nat → JFields → List Char → Option (JFields × List Char)
  | 0, _, _ => none
  | fuel+1, acc, cs =>
      match skipWsP cs with
      | c :: r =>
          if c = '\"' then
            match parseStrBody (fuel+1) [] r with
            | some (key, r1) =>
                match skipWsP r1 with
                | ':' :: r2 =>
                    match parseValueP fuel (skipWsP r2) with
                    | some (v, r3) =>
                        let acc2 := objSet acc key v
                        match skipWsP r3 with
                        | ',' :: r4 => parseMembersP fuel acc2 r4
                        | c4 :: r4 => if c4 = closeBraceChar then some (acc2, r4) else none
                        | [] => none
                    | none => none
                | _ => none
            | none => none
          else none
      | [] => none
end

/-- `JSON.parse` model: a full document with nothing but whitespace after. -/
def jsonParse (s : String) : Option JSON :=
  let cs := s.toList
  match parseValueP (cs.length + 1) cs with
  | some (j, r) => if (skipWsP r).isEmpty then some j else none
  | none => none

/-- `String.prototype.trim` whitespace (the common characters). -/
def jsTrimWs (c : Char) : Bool :=
  c = ' ' || c = '\t' || c = '\n' || c = '\r' || c = Char.ofNat 11 || c = Char.ofNat 12

def trimList (l : List Char) : List Char :=
  ((l.dropWhile jsTrimWs).reverse.dropWhile jsTrimWs).reverse

/-- `buffer.split("\n")` followed by `buffer = lines.pop()`: the complete lines
(without their newline) and the trailing fragment. -/
def splitNl : List Char → List (List Char) × List Char
  | [] => ([], [])
  | c :: cs =>
      let r := splitNl cs
      if c = '\n' then ([] :: r.1, r.2)
      else
        match r.1 with
        | [] => ([], c :: r.2)
        | l :: ls => ((c :: l) :: ls, r.2)

/-- One line of the stream loop body: `data:`-marked lines are unwrapped,
empty and `[DONE]` payloads skipped, the payload JSON-parsed (parse failures
skipped), and a truthy `response` field translated. -/
def processLine (st : TranslateState) (line : List Char) : TranslateState × List ResponsePart :=
  let trimmed := trimList line
  if !startsWithList trimmed "data:".toList then (st, [])
  else
    let payload := trimList (trimmed.drop 5)
    if payload.isEmpty || payload = "[DONE]".toList then (st, [])
    else
      match jsonParse (String.mk payload) with
      | none => (st, [])
      | some parsed =>
          match jGet parsed "response" with
          | some r => if jsTruthy r then handleResponseParts r st else (st, [])
          | none => (st, [])

def processLines (st : TranslateState) (lines : List (List Char)) :
    TranslateState × List ResponsePart :=
  lines.foldl
    (fun acc line =>
      let r := processLine acc.1 line
      (r.1, acc.2 ++ r.2))
    (st, [])

/-- The reassembly state of `streamResponse`: the pending partial line and the
translation state. -/
structure StreamState where
  buffer : List Char
  translate : TranslateState
deriving Repr

/-- One chunk step of `streamResponse`: append the chunk to the pending buffer,
split on newlines, hold back the trailing fragment, process the complete
lines. -/
def processChunk (st : StreamState) (chunk : List Char) : StreamState × List ResponsePart :=
  let lr := splitNl (st.buffer ++ chunk)
  let r := processLines st.translate lr.1
  (⟨lr.2, r.1⟩, r.2)

/-- The read loop of `streamResponse`: before each read the cancellation token
is consulted (iteration index `i`); a requested cancellation returns at once,
the end of the chunk list is the reader's `done`.  The trailing unterminated
fragment is never parsed (as in the source, which breaks on `done`). -/
def streamLoop (cancelled : Nat → Bool) : Nat → StreamState → List (List Char) → List ResponsePart
  | i, st, chunks =>
      if cancelled i then []
      else
        match chunks with
        | [] => []
        | c :: cs =>
            let r := processChunk st c
            r.2 ++ streamLoop cancelled (i + 1) r.1 cs

/-- `streamResponse` from provider.ts, as the sequence of reported parts for a
given chunked body, cancellation schedule and initial translation state. -/
def streamResponse (cancelled : Nat → Bool) (st : TranslateState)
    (chunks : List (List Char)) : List ResponsePart :=
  streamLoop cancelled 0 ⟨[], st⟩ chunks

-- ===========================================================================
-- THEOREMS
-- ===========================================================================

/-- The placeholder-only `properties` object the cleaner synthesises. -/
def placeholderProperties : JSON :=
  .obj [(EMPTY_SCHEMA_PLACEHOLDER_NAME,
         .obj [("type", .str "boolean"),
               ("description", .str EMPTY_SCHEMA_PLACEHOLDER_DESCRIPTION)])]

/-- C5: `cleanJSONSchemaForAntigravity` on `{type:"object"}` — with no
`properties` key, or with an empty `properties` object — returns a schema whose
`properties` holds exactly one entry, the boolean placeholder property
`_placeholder`, and whose `required` array holds exactly that name. -/
theorem C5_empty_object_placeholder :
    cleanJSONSchemaForAntigravity (.obj [("type", .str "object")]) =
      .obj [("type", .str "object"), ("properties", placeholderProperties),
            ("required", .arr [.str EMPTY_SCHEMA_PLACEHOLDER_NAME])] ∧
    cleanJSONSchemaForAntigravity (.obj [("type", .str "object"), ("properties", .obj [])]) =
      .obj [("type", .str "object"), ("properties", placeholderProperties),
            ("required", .arr [.str EMPTY_SCHEMA_PLACEHOLDER_NAME])] ∧
    EMPTY_SCHEMA_PLACEHOLDER_NAME = "_placeholder" := ⟨rfl, rfl, rfl⟩

set_option maxHeartbeats 1000000 in
/-- C1: schema normalization is *not* idempotent: on `{enum:["a","b"]}` the
first pass appends the hint `Allowed: a, b` to the description, and a second
pass appends it again (the enum survives cleaning, so `addEnumHints` fires on
the already-hinted output), so `clean (clean S)` differs from `clean S`. -/
theorem C1_clean_not_idempotent :
    cleanJSONSchemaForAntigravity
        (cleanJSONSchemaForAntigravity (.obj [("enum", .arr [.str "a", .str "b"])])) ≠
      cleanJSONSchemaForAntigravity (.obj [("enum", .arr [.str "a", .str "b"])]) := by
  have e1 : cleanJSONSchemaForAntigravity (.obj [("enum", .arr [.str "a", .str "b"])]) =
      .obj [("enum", .arr [.str "a", .str "b"]), ("description", .str "Allowed: a, b")] := rfl
  have e2 : cleanJSONSchemaForAntigravity
      (.obj [("enum", .arr [.str "a", .str "b"]), ("description", .str "Allowed: a, b")]) =
      .obj [("enum", .arr [.str "a", .str "b"]),
            ("description", .str "Allowed: a, b (Allowed: a, b)")] := rfl
  rw [e1, e2]
  intro h
  exact absurd (congrArg (fun j => descString (spreadFields j)) h) (by decide)

set_option maxHeartbeats 1000000 in
/-- C7: resolving `antigravity-gemini-3-pro` (explicit antigravity quota, no
tier suffix) bypasses the alias table (which would map `gemini-3-pro-low` back
to `gemini-3-pro`), appends the default `-low` tier to the model name, and
routes to the `antigravity` quota. -/
theorem C7_antigravity_gemini3_pro_default_tier :
    resolveModelWithTier "antigravity-gemini-3-pro" =
      { actualModel := "gemini-3-pro-low", thinkingLevel := some "low",
        isThinkingModel := true, quotaPreference := "antigravity", explicitQuota := true } ∧
    strEndsWith "gemini-3-pro-low" "-low" = true := by
  refine ⟨by decide, by decide⟩

set_option maxHeartbeats 1000000 in
/-- C8: resolving `claude-sonnet-4-5-thinking` (no tier suffix) yields the
maximum claude budget 32768; and in general, whenever no tier is extracted and
the resolved name is a Claude thinking model (contains `claude` and `thinking`,
and is not a Gemini-3 name, which takes the level-based branch instead), the
result carries `thinkingBudget = 32768` and `isThinkingModel = true`. -/
theorem C8_claude_thinking_default_budget :
    resolveModelWithTier "claude-sonnet-4-5-thinking" =
      { actualModel := "claude-sonnet-4-5-thinking", thinkingBudget := some 32768,
        isThinkingModel := true, quotaPreference := "antigravity", explicitQuota := false } ∧
    ∀ (m : String),
      extractThinkingTierFromModel (stripQuota m) = none →
      jsIncludes (jsToLower (resolvedModelOf m)) "claude" = true →
      jsIncludes (jsToLower (resolvedModelOf m)) "thinking" = true →
      jsIncludes (jsToLower (resolvedModelOf m)) "gemini-3" = false →
      (resolveModelWithTier m).thinkingBudget = some 32768 ∧
      (resolveModelWithTier m).isThinkingModel = true := by
  refine ⟨by decide, ?_⟩
  intro m h1 h2 h3 h4
  unfold resolveModelWithTier
  simp only [h1, h2, h3, h4]
  simp [budgetFor]

set_option maxHeartbeats 1000000 in
/-- C8, witness: the general statement applied at `claude-sonnet-4-5-thinking`,
with all hypotheses discharged by computation. -/
theorem C8_claude_thinking_default_budget_witness :
    (resolveModelWithTier "claude-sonnet-4-5-thinking").thinkingBudget = some 32768 ∧
    (resolveModelWithTier "claude-sonnet-4-5-thinking").isThinkingModel = true :=
  C8_claude_thinking_default_budget.2 "claude-sonnet-4-5-thinking"
    (by decide) (by decide) (by decide) (by decide)

/-- A wire `functionCall` part with the given id and name (empty args). -/
def callWP (i n : String) : JSON :=
  .obj [("functionCall", .obj [("name", .str n), ("args", .obj []), ("id", .str i)])]

/-- A wire `functionResponse` part with the given id and name (empty response). -/
def respWP (i n : String) : JSON :=
  .obj [("functionResponse", .obj [("name", .str n), ("id", .str i), ("response", .obj [])])]

/-- C2: pairing enforcement.  For a `model` turn holding two calls (ids `a`,
`b`) followed immediately by a `user` turn whose responses match only `a`, the
result keeps the non-call parts plus call `a` in the model turn and response
`a` in the user turn, and drops call `b` entirely.  The second conjunct shows a
call whose response sits two turns later (not adjacent) is still dropped: the
orphaned response turn passes through, but call `b` is gone. -/
theorem C2_tool_pairing : ∀ a b t na nb : String, a ≠ "" → b ≠ "" → a ≠ b →
    (enforceGeminiToolPairing
      [mkContent "model" [.obj [("text", .str t)], callWP a na, callWP b nb],
       mkContent "user" [respWP a na]] =
      [mkContent "model" [.obj [("text", .str t)], callWP a na],
       mkContent "user" [respWP a na]]) ∧
    (enforceGeminiToolPairing
      [mkContent "model" [callWP a na, callWP b nb],
       mkContent "user" [respWP a na],
       mkContent "user" [respWP b nb]] =
      [mkContent "model" [callWP a na],
       mkContent "user" [respWP a na],
       mkContent "user" [respWP b nb]]) := by
  intro a b t na nb ha hb hab
  constructor <;>
    simp [enforceGeminiToolPairing, mkContent, callWP, respWP, jGet, objGet,
      hasToolCallsIn, collectIds, setParts, matchedFilterCall, matchedFilterResp,
      spreadFields, objSet, isStrVal, jsTruthyOpt, jsTruthy, List.contains,
      ha, hb, hab, Ne.symm hab]

/-- C2, witness: the pairing statement at ids `call-a`/`call-b`. -/
theorem C2_tool_pairing_witness :
    enforceGeminiToolPairing
      [mkContent "model" [.obj [("text", .str "hi")], callWP "call-a" "f", callWP "call-b" "g"],
       mkContent "user" [respWP "call-a" "f"]] =
      [mkContent "model" [.obj [("text", .str "hi")], callWP "call-a" "f"],
       mkContent "user" [respWP "call-a" "f"]] :=
  (C2_tool_pairing "call-a" "call-b" "hi" "f" "g"
    (by decide) (by decide) (by decide)).1

/-- C3, counterexample: the claim as stated fails for an empty-string
signature.  The per-call-id map holds the signature `""` for call id `c1`, yet
the emitted `functionCall` wire part carries no `thoughtSignature` at all
(JavaScript truthiness: `signature ? {thoughtSignature: signature} : {}`
discards the empty string), rather than carrying "exactly s". -/
theorem C3_empty_signature_counterexample :
    (convertMessages [⟨.assistant, [.toolCall "c1" "t" none]⟩]
        (fun c => if c = "c1" then some "" else none) none true true).contents =
      [mkContent "model"
        [.obj [("functionCall", .obj [("name", .str "t"), ("args", .obj []), ("id", .str "c1")])]]] ∧
    (fun c => if c = "c1" then some "" else none) "c1" = some "" ∧
    jGet (.obj [("functionCall", .obj [("name", .str "t"), ("args", .obj []), ("id", .str "c1")])])
      "thoughtSignature" = none := ⟨rfl, rfl, rfl⟩

/-- C3, amended: per-call-id signature attachment, for *non-empty* signatures.
`buildRequestPayload` passes `allowFallbackSignature := isClaudeModel modelId`
to `convertMessages`, which builds every tool-call wire part with
`toolCallWirePart`; the first conjunct exhibits that wiring on a one-call
message list, generically.  A non-empty per-call-id signature is attached
verbatim; with no per-call entry, a non-empty session fallback is attached iff
the target is Claude-family; non-Claude targets never receive the fallback.
(Empty-string signatures are JS-falsy and never attached — the cache never
stores them.) -/
theorem C3_signature_attachment (modelId : String) (sigMap : String → Option String)
    (fb : Option String) (c nm : String) (inp : Option JSON) :
    ((convertMessages [⟨.assistant, [.toolCall c nm inp]⟩] sigMap fb true
        (isClaudeModel modelId)).contents =
      [mkContent "model" [toolCallWirePart sigMap fb (isClaudeModel modelId) c nm inp]]) ∧
    (∀ s, sigMap c = some s → s ≠ "" →
      jGet (toolCallWirePart sigMap fb (isClaudeModel modelId) c nm inp) "thoughtSignature" =
        some (.str s)) ∧
    (∀ f, sigMap c = none → fb = some f → f ≠ "" →
      jGet (toolCallWirePart sigMap fb (isClaudeModel modelId) c nm inp) "thoughtSignature" =
        (if isClaudeModel modelId then some (.str f) else none)) ∧
    (sigMap c = none → isClaudeModel modelId = false →
      jGet (toolCallWirePart sigMap fb (isClaudeModel modelId) c nm inp) "thoughtSignature" =
        none) := by
  refine ⟨?_, ?_, ?_, ?_⟩
  · simp [convertMessages, convertMessagesGo, processParts, mkContent]
  · intro s hs hne
    simp [toolCallWirePart, hs, hne, jGet, objGet]
  · intro f hc hf hne
    by_cases hm : isClaudeModel modelId <;>
      simp [toolCallWirePart, hc, hf, hne, hm, jGet, objGet]
  · intro hc hm
    simp [toolCallWirePart, hc, hm, jGet, objGet]

/-- C3, witness: the amended statement applied concretely — a non-empty cached
signature `sig-x` is attached for its call id on a non-Claude target, and with
no per-call entry the non-Claude target receives no fallback. -/
theorem C3_signature_attachment_witness :
    jGet (toolCallWirePart (fun c => if c = "x" then some "sig-x" else none) (some "fb")
        (isClaudeModel "gemini-3-pro") "x" "t" none) "thoughtSignature" = some (.str "sig-x") ∧
    jGet (toolCallWirePart (fun c => if c = "x" then some "sig-x" else none) (some "fb")
        (isClaudeModel "gemini-3-pro") "y" "t" none) "thoughtSignature" = none :=
  ⟨(C3_signature_attachment "gemini-3-pro" (fun c => if c = "x" then some "sig-x" else none)
      (some "fb") "x" "t" none).2.1 "sig-x" (by decide) (by decide),
   (C3_signature_attachment "gemini-3-pro" (fun c => if c = "x" then some "sig-x" else none)
      (some "fb") "y" "t" none).2.2.2 (by decide) (by decide)⟩

/-- Splitting a concatenation on newlines: the left part's complete lines come
first, and its trailing fragment prepends to the right part. -/
theorem splitNl_append (a b : List Char) :
    splitNl (a ++ b) =
      ((splitNl a).1 ++ (splitNl ((splitNl a).2 ++ b)).1,
       (splitNl ((splitNl a).2 ++ b)).2) := by
  induction a with
  | nil => simp [splitNl]
  | cons c a ih =>
      by_cases hc : c = '\n'
      · subst hc
        simp [splitNl, ih]
      · simp only [List.cons_append, splitNl, if_neg hc, List.append_eq]
        rw [ih]
        cases h : (splitNl a).1 with
        | nil => simp [h, splitNl, if_neg hc]
        | cons l ls => simp [h]

theorem processLines_acc (st : TranslateState) (ps : List ResponsePart)
    (l : List (List Char)) :
    l.foldl (fun acc line => let r := processLine acc.1 line; (r.1, acc.2 ++ r.2)) (st, ps) =
      ((processLines st l).1, ps ++ (processLines st l).2) := by
  induction l generalizing st ps with
  | nil => simp [processLines]
  | cons x l ih =>
      simp only [processLines, List.foldl_cons]
      rw [ih, ih]
      simp

/-- Processing a concatenated line list threads the state left to right and
concatenates the reported parts. -/
theorem processLines_append (st : TranslateState) (l1 l2 : List (List Char)) :
    processLines st (l1 ++ l2) =
      ((processLines (processLines st l1).1 l2).1,
       (processLines st l1).2 ++ (processLines (processLines st l1).1 l2).2) := by
  simp only [processLines, List.foldl_append]
  have h := processLines_acc (processLines st l1).1 (processLines st l1).2 l2
  simp only [processLines] at h
  rw [show (List.foldl (fun acc line => let r := processLine acc.1 line; (r.1, acc.2 ++ r.2))
      (st, ([] : List ResponsePart)) l1) = ((processLines st l1).1, (processLines st l1).2)
    from by rw [processLines_acc]; simp [processLines]]
  exact h

/-- C4: stream reassembly is invariant under chunk boundaries.  Feeding a body
split into two chunks at any point reports exactly the parts of feeding it
whole: the trailing incomplete line fragment is buffered and carried into the
next chunk, so the complete-line sequence — and hence the translated text and
tool-call parts, including the synthesized `tool-call-<n>` numbering threaded
through the state — is identical. -/
theorem C4_stream_chunk_boundary_invariance (st : TranslateState) (xs ys : List Char) :
    streamResponse (fun _ => false) st [xs ++ ys] =
      streamResponse (fun _ => false) st [xs, ys] := by
  simp only [streamResponse, streamLoop, processChunk, if_neg]
  simp only [List.nil_append, Bool.false_eq_true, if_false]
  rw [splitNl_append, processLines_append]
  simp

/-- One-step unfolding of the read loop. -/
theorem streamLoop_eq (cancelled : Nat → Bool) (i : Nat) (st : StreamState)
    (chunks : List (List Char)) :
    streamLoop cancelled i st chunks =
      if cancelled i then []
      else
        match chunks with
        | [] => []
        | c :: cs =>
            (processChunk st c).2 ++ streamLoop cancelled (i + 1) (processChunk st c).1 cs := by
  cases chunks <;> rfl

theorem streamLoop_cancel (cancelled : Nat → Bool) :
    ∀ (m i : Nat) (st : StreamState) (chunks : List (List Char)),
      cancelled (i + m) = true →
      streamLoop cancelled i st chunks = streamLoop cancelled i st (chunks.take m) := by
  intro m
  induction m with
  | zero =>
      intro i st chunks h
      simp only [Nat.add_zero] at h
      rw [streamLoop_eq, streamLoop_eq]
      simp [h]
  | succ m ih =>
      intro i st chunks h
      cases chunks with
      | nil => simp
      | cons c cs =>
          rw [List.take_succ_cons, streamLoop_eq, streamLoop_eq]
          by_cases hc : cancelled i
          · simp [hc]
          · simp only [hc, Bool.false_eq_true, if_false]
            rw [ih (i + 1) _ cs (by rw [Nat.add_right_comm]; exact h)]

/-- C9: cancellation stops the stream loop.  The cancellation signal is checked
before each chunk read (iteration index), and once it reads true at iteration
`n` the loop returns without reporting any further parts: the output equals
that of the stream truncated to its first `n` chunks, whatever follows. -/
theorem C9_cancellation_stops_stream (cancelled : Nat → Bool) (st : TranslateState)
    (chunks : List (List Char)) (n : Nat) (h : cancelled n = true) :
    streamResponse cancelled st chunks = streamResponse cancelled st (chunks.take n) := by
  unfold streamResponse
  exact streamLoop_cancel cancelled n 0 _ chunks (by simpa using h)

/-- C9, witness: with cancellation requested from iteration 1 on, a two-chunk
stream reports exactly what its first chunk alone reports. -/
theorem C9_cancellation_stops_stream_witness :
    streamResponse (fun i => decide (1 ≤ i)) ⟨0, ⟨"", none⟩, []⟩
        [("data: x\n").toList, ("data: y\n").toList] =
      streamResponse (fun i => decide (1 ≤ i)) ⟨0, ⟨"", none⟩, []⟩ [("data: x\n").toList] :=
  C9_cancellation_stops_stream (fun i => decide (1 ≤ i)) ⟨0, ⟨"", none⟩, []⟩
    [("data: x\n").toList, ("data: y\n").toList] 1 (by decide)

/-- A part that `convertMessages` converts to nothing: an empty text part, an
unrecognized part, or a tool part while tool history is disallowed. -/
def producesNothing (allowToolHistory : Bool) : InputPart → Bool
  | .text v => v == ""
  | .other => true
  | .toolCall _ _ _ => !allowToolHistory
  | .toolResult _ _ => !allowToolHistory

theorem convertMessagesGo_contents_shape (sigMap : String → Option String)
    (fb : Option String) (allowTool allowFb : Bool) :
    ∀ (msgs : List ChatMessage) (names : List (String × String)) (c : JSON),
      c ∈ (convertMessagesGo sigMap fb allowTool allowFb names msgs).1 →
      ∃ role parts, c = mkContent role parts ∧ parts ≠ [] := by
  intro msgs
  induction msgs with
  | nil => intro names c hc; simp [convertMessagesGo] at hc
  | cons m ms ih =>
      intro names c hc
      cases hm : m.role with
      | system =>
          simp only [convertMessagesGo, hm] at hc
          exact ih _ c hc
      | user =>
          simp only [convertMessagesGo, hm,
            show (if (MsgRole.user = MsgRole.assistant) then "model" else "user") = "user"
              from rfl, List.mem_append] at hc
          rcases hc with (hc | hc) | hc
          · by_cases hp : (processParts sigMap fb allowTool allowFb "user" names m.content).parts.isEmpty
            · simp [hp] at hc
            · simp only [hp, Bool.not_false, if_true, List.mem_singleton] at hc
              exact ⟨"user", _, hc, by simpa [List.isEmpty_iff] using hp⟩
          · by_cases hp : (processParts sigMap fb allowTool allowFb "user" names m.content).toolResultParts.isEmpty
            · simp [hp] at hc
            · simp only [hp, Bool.not_false, if_true, List.mem_singleton] at hc
              exact ⟨"user", _, hc, by simpa [List.isEmpty_iff] using hp⟩
          · exact ih _ c hc
      | assistant =>
          simp only [convertMessagesGo, hm,
            show (if (MsgRole.assistant = MsgRole.assistant) then "model" else "user") = "model"
              from rfl, List.mem_append] at hc
          rcases hc with (hc | hc) | hc
          · by_cases hp : (processParts sigMap fb allowTool allowFb "model" names m.content).parts.isEmpty
            · simp [hp] at hc
            · simp only [hp, Bool.not_false, if_true, List.mem_singleton] at hc
              exact ⟨"model", _, hc, by simpa [List.isEmpty_iff] using hp⟩
          · by_cases hp : (processParts sigMap fb allowTool allowFb "model" names m.content).toolResultParts.isEmpty
            · simp [hp] at hc
            · simp only [hp, Bool.not_false, if_true, List.mem_singleton] at hc
              exact ⟨"user", _, hc, by simpa [List.isEmpty_iff] using hp⟩
          · exact ih _ c hc

theorem processParts_nothing (sigMap : String → Option String) (fb : Option String)
    (allowTool allowFb : Bool) (role : String) :
    ∀ (l : List InputPart) (names : List (String × String)),
      (∀ p ∈ l, producesNothing allowTool p = true) →
      processParts sigMap fb allowTool allowFb role names l = ⟨names, [], []⟩ := by
  intro l
  induction l with
  | nil => intro names _; rfl
  | cons p ps ih =>
      intro names h
      have hp := h p (by simp)
      have hps : ∀ q ∈ ps, producesNothing allowTool q = true :=
        fun q hq => h q (by simp [hq])
      cases p with
      | text v =>
          have hv : v = "" := by simpa [producesNothing] using hp
          subst hv
          simp [processParts, ih names hps]
      | toolCall c n i =>
          have ha : allowTool = false := by simpa [producesNothing] using hp
          subst ha
          simp [processParts, ih names hps]
      | toolResult c ct =>
          have ha : allowTool = false := by simpa [producesNothing] using hp
          subst ha
          simp [processParts, ih names hps]
      | other =>
          simp [processParts, ih names hps]

theorem convertMessagesGo_elide (sigMap : String → Option String) (fb : Option String)
    (allowTool allowFb : Bool) (m : ChatMessage)
    (hrole : m.role ≠ .system)
    (hparts : ∀ p ∈ m.content, producesNothing allowTool p = true) :
    ∀ (msgs1 msgs2 : List ChatMessage) (names : List (String × String)),
      convertMessagesGo sigMap fb allowTool allowFb names (msgs1 ++ m :: msgs2) =
        convertMessagesGo sigMap fb allowTool allowFb names (msgs1 ++ msgs2) := by
  intro msgs1
  induction msgs1 with
  | nil =>
      intro msgs2 names
      cases hm : m.role with
      | system => exact absurd hm hrole
      | user =>
          simp only [List.nil_append, convertMessagesGo, hm,
            processParts_nothing sigMap fb allowTool allowFb _ m.content names hparts]
          simp
      | assistant =>
          simp only [List.nil_append, convertMessagesGo, hm,
            processParts_nothing sigMap fb allowTool allowFb _ m.content names hparts]
          simp
  | cons m1 ms1 ih =>
      intro msgs2 names
      cases hm1 : m1.role with
      | system => simp only [List.cons_append, convertMessagesGo, hm1, List.append_eq, ih]
      | user => simp only [List.cons_append, convertMessagesGo, hm1, List.append_eq, ih]
      | assistant => simp only [List.cons_append, convertMessagesGo, hm1, List.append_eq, ih]

theorem convertMessagesGo_system (sigMap : String → Option String) (fb : Option String)
    (allowTool allowFb : Bool) :
    ∀ (msgs : List ChatMessage) (names : List (String × String)),
      (convertMessagesGo sigMap fb allowTool allowFb names msgs).2 ≠ [] ↔
        ∃ m ∈ msgs, m.role = .system ∧ toTextParts m.content ≠ "" := by
  intro msgs
  induction msgs with
  | nil => intro names; simp [convertMessagesGo]
  | cons m ms ih =>
      intro names
      cases hm : m.role with
      | system =>
          by_cases ht : toTextParts m.content = ""
          · simp only [convertMessagesGo, hm, ht]
            simp only [ne_eq, not_true_eq_false, if_false, ih]
            constructor
            · rintro ⟨m2, hm2, h2⟩
              exact ⟨m2, by simp [hm2], h2⟩
            · rintro ⟨m2, hm2, h2, h3⟩
              rcases List.mem_cons.mp hm2 with rfl | hm2
              · exact absurd ht h3
              · exact ⟨m2, hm2, h2, h3⟩
          · simp only [convertMessagesGo, hm]
            constructor
            · intro _
              exact ⟨m, by simp, hm, ht⟩
            · intro _
              simp [ht]
      | user =>
          simp only [convertMessagesGo, hm, ih]
          constructor
          · rintro ⟨m2, hm2, h2⟩
            exact ⟨m2, by simp [hm2], h2⟩
          · rintro ⟨m2, hm2, h2, h3⟩
            rcases List.mem_cons.mp hm2 with rfl | hm2
            · rw [hm] at h2; exact absurd h2 (by simp)
            · exact ⟨m2, hm2, h2, h3⟩
      | assistant =>
          simp only [convertMessagesGo, hm, ih]
          constructor
          · rintro ⟨m2, hm2, h2⟩
            exact ⟨m2, by simp [hm2], h2⟩
          · rintro ⟨m2, hm2, h2, h3⟩
            rcases List.mem_cons.mp hm2 with rfl | hm2
            · rw [hm] at h2; exact absurd h2 (by simp)
            · exact ⟨m2, hm2, h2, h3⟩

/-- C10: `convertMessages` never emits a wire turn with an empty parts array —
every emitted content is `{role, parts}` with a non-empty parts list; a
non-system message whose parts all convert to nothing produces no wire turn at
all (the conversion of the surrounding list is unchanged); and
`systemInstruction` is present exactly when some system message has non-empty
text. -/
theorem C10_convertMessages_no_empty_turns :
    (∀ (sigMap : String → Option String) (fb : Option String) (allowTool allowFb : Bool)
        (msgs : List ChatMessage) (c : JSON),
        c ∈ (convertMessages msgs sigMap fb allowTool allowFb).contents →
        ∃ role parts, c = mkContent role parts ∧ parts ≠ []) ∧
    (∀ (sigMap : String → Option String) (fb : Option String) (allowTool allowFb : Bool)
        (msgs1 msgs2 : List ChatMessage) (m : ChatMessage),
        m.role ≠ .system →
        (∀ p ∈ m.content, producesNothing allowTool p = true) →
        convertMessages (msgs1 ++ m :: msgs2) sigMap fb allowTool allowFb =
          convertMessages (msgs1 ++ msgs2) sigMap fb allowTool allowFb) ∧
    (∀ (sigMap : String → Option String) (fb : Option String) (allowTool allowFb : Bool)
        (msgs : List ChatMessage),
        (convertMessages msgs sigMap fb allowTool allowFb).systemInstruction.isSome = true ↔
          ∃ m ∈ msgs, m.role = .system ∧ toTextParts m.content ≠ "") := by
  refine ⟨?_, ?_, ?_⟩
  · intro sigMap fb allowTool allowFb msgs c hc
    simp only [convertMessages] at hc
    exact convertMessagesGo_contents_shape sigMap fb allowTool allowFb msgs [] c hc
  · intro sigMap fb allowTool allowFb msgs1 msgs2 m hrole hparts
    simp only [convertMessages]
    rw [convertMessagesGo_elide sigMap fb allowTool allowFb m hrole hparts]
  · intro sigMap fb allowTool allowFb msgs
    simp only [convertMessages]
    by_cases h : (convertMessagesGo sigMap fb allowTool allowFb [] msgs).2 = []
    · rw [← convertMessagesGo_system sigMap fb allowTool allowFb msgs []]
      simp [h]
    · rw [← convertMessagesGo_system sigMap fb allowTool allowFb msgs []]
      simp [h]

/-- C10, witness: an assistant message holding only an empty text part and an
unknown part yields no wire turn (converting it alone equals converting the
empty list), and a system message with text `sys` makes `systemInstruction`
present. -/
theorem C10_convertMessages_no_empty_turns_witness :
    (convertMessages [⟨.assistant, [.text "", .other]⟩] (fun _ => none) none true true =
      convertMessages [] (fun _ => none) none true true) ∧
    (convertMessages [⟨.system, [.text "sys"]⟩] (fun _ => none) none true
        true).systemInstruction.isSome = true :=
  ⟨C10_convertMessages_no_empty_turns.2.1 (fun _ => none) none true true [] []
      ⟨.assistant, [.text "", .other]⟩ (by decide) (by decide),
   (C10_convertMessages_no_empty_turns.2.2 (fun _ => none) none true true
      [⟨.system, [.text "sys"]⟩]).mpr
      ⟨⟨.system, [.text "sys"]⟩, by simp, rfl, by decide⟩⟩

/-- A plain constant/enum option of a union, as the claim describes. -/
inductive UnionOptSpec where
  | const (v : JSON)
  | enumVals (vs : List JSON)

def specVals : UnionOptSpec → List JSON
  | .const v => [v]
  | .enumVals vs => vs

def specToJSON : UnionOptSpec → JSON
  | .const v => .obj [("const", v)]
  | .enumVals vs => .obj [("enum", .arr vs)]

def isScalar (j : JSON) : Bool := !isJsObject j

def specOk : UnionOptSpec → Prop
  | .const v => isScalar v = true
  | .enumVals vs => vs ≠ [] ∧ ∀ v ∈ vs, isScalar v = true

theorem crhF_scalar (n : Nat) (v : JSON) (h : isScalar v = true) :
    convertRefsToHintsF n v = v := by
  cases n <;> cases v <;> simp_all [convertRefsToHintsF, isScalar, isJsObject]

theorem crhF_scalarArr (n : Nat) (vs : List JSON) (h : ∀ v ∈ vs, isScalar v = true) :
    convertRefsToHintsF n (.arr vs) = .arr vs := by
  cases n with
  | zero => rfl
  | succ n =>
      simp only [convertRefsToHintsF]
      congr 1
      induction vs with
      | nil => rfl
      | cons v vs ih =>
          simp only [List.map_cons]
          rw [crhF_scalar n v (h v (by simp)), ih (fun w hw => h w (by simp [hw]))]

theorem cceF_scalar (n : Nat) (v : JSON) (h : isScalar v = true) :
    convertConstToEnumF n v = v := by
  cases n <;> cases v <;> simp_all [convertConstToEnumF, isScalar, isJsObject]

theorem cceF_scalarArr (n : Nat) (vs : List JSON) (h : ∀ v ∈ vs, isScalar v = true) :
    convertConstToEnumF n (.arr vs) = .arr vs := by
  cases n with
  | zero => rfl
  | succ n =>
      simp only [convertConstToEnumF]
      congr 1
      induction vs with
      | nil => rfl
      | cons v vs ih =>
          simp only [List.map_cons]
          rw [cceF_scalar n v (h v (by simp)), ih (fun w hw => h w (by simp [hw]))]

theorem aehF_scalar (n : Nat) (v : JSON) (h : isScalar v = true) :
    addEnumHintsF n v = v := by
  cases n <;> cases v <;> simp_all [addEnumHintsF, isScalar, isJsObject]

theorem aehF_scalarArr (n : Nat) (vs : List JSON) (h : ∀ v ∈ vs, isScalar v = true) :
    addEnumHintsF n (.arr vs) = .arr vs := by
  cases n with
  | zero => rfl
  | succ n =>
      simp only [addEnumHintsF]
      congr 1
      induction vs with
      | nil => rfl
      | cons v vs ih =>
          simp only [List.map_cons]
          rw [aehF_scalar n v (h v (by simp)), ih (fun w hw => h w (by simp [hw]))]

theorem aphF_scalar (n : Nat) (v : JSON) (h : isScalar v = true) :
    addAdditionalPropertiesHintsF n v = v := by
  cases n <;> cases v <;> simp_all [addAdditionalPropertiesHintsF, isScalar, isJsObject]

theorem aphF_scalarArr (n : Nat) (vs : List JSON) (h : ∀ v ∈ vs, isScalar v = true) :
    addAdditionalPropertiesHintsF n (.arr vs) = .arr vs := by
  cases n with
  | zero => rfl
  | succ n =>
      simp only [addAdditionalPropertiesHintsF]
      congr 1
      induction vs with
      | nil => rfl
      | cons v vs ih =>
          simp only [List.map_cons]
          rw [aphF_scalar n v (h v (by simp)), ih (fun w hw => h w (by simp [hw]))]

theorem mcdF_scalar (n : Nat) (v : JSON) (h : isScalar v = true) :
    moveConstraintsToDescriptionF n v = v := by
  cases n <;> cases v <;> simp_all [moveConstraintsToDescriptionF, isScalar, isJsObject]

theorem mcdF_scalarArr (n : Nat) (vs : List JSON) (h : ∀ v ∈ vs, isScalar v = true) :
    moveConstraintsToDescriptionF n (.arr vs) = .arr vs := by
  cases n with
  | zero => rfl
  | succ n =>
      simp only [moveConstraintsToDescriptionF]
      congr 1
      induction vs with
      | nil => rfl
      | cons v vs ih =>
          simp only [List.map_cons]
          rw [mcdF_scalar n v (h v (by simp)), ih (fun w hw => h w (by simp [hw]))]

theorem maoF_scalar (n : Nat) (v : JSON) (h : isScalar v = true) :
    mergeAllOfF n v = v := by
  cases n <;> cases v <;> simp_all [mergeAllOfF, isScalar, isJsObject]

theorem maoF_scalarArr (n : Nat) (vs : List JSON) (h : ∀ v ∈ vs, isScalar v = true) :
    mergeAllOfF n (.arr vs) = .arr vs := by
  cases n with
  | zero => rfl
  | succ n =>
      simp only [mergeAllOfF]
      congr 1
      induction vs with
      | nil => rfl
      | cons v vs ih =>
          simp only [List.map_cons]
          rw [maoF_scalar n v (h v (by simp)), ih (fun w hw => h w (by simp [hw]))]

theorem faoF_scalar (n : Nat) (v : JSON) (h : isScalar v = true) :
    flattenAnyOfOneOfF n v = v := by
  cases n <;> cases v <;> simp_all [flattenAnyOfOneOfF, isScalar, isJsObject]

theorem faoF_scalarArr (n : Nat) (vs : List JSON) (h : ∀ v ∈ vs, isScalar v = true) :
    flattenAnyOfOneOfF n (.arr vs) = .arr vs := by
  cases n with
  | zero => rfl
  | succ n =>
      simp only [flattenAnyOfOneOfF]
      congr 1
      induction vs with
      | nil => rfl
      | cons v vs ih =>
          simp only [List.map_cons]
          rw [faoF_scalar n v (h v (by simp)), ih (fun w hw => h w (by simp [hw]))]

theorem ftaRecF_scalar (n : Nat) (v : JSON) (h : isScalar v = true) :
    flattenTypeArraysRecF n v = v := by
  cases n <;> cases v <;> simp_all [flattenTypeArraysRecF, isScalar, isJsObject]

theorem ftaRecF_scalarArr (n : Nat) (vs : List JSON) (h : ∀ v ∈ vs, isScalar v = true) :
    flattenTypeArraysRecF n (.arr vs) = .arr vs := by
  cases n with
  | zero => rfl
  | succ n =>
      simp only [flattenTypeArraysRecF]
      congr 1
      induction vs with
      | nil => rfl
      | cons v vs ih =>
          simp only [List.map_cons]
          rw [ftaRecF_scalar n v (h v (by simp)), ih (fun w hw => h w (by simp [hw]))]

theorem rukF_scalar (n : Nat) (v : JSON) (h : isScalar v = true) :
    removeUnsupportedKeywordsF n v = v := by
  cases n <;> cases v <;> simp_all [removeUnsupportedKeywordsF, isScalar, isJsObject]

theorem rukF_scalarArr (n : Nat) (vs : List JSON) (h : ∀ v ∈ vs, isScalar v = true) :
    removeUnsupportedKeywordsF n (.arr vs) = .arr vs := by
  cases n with
  | zero => rfl
  | succ n =>
      simp only [removeUnsupportedKeywordsF]
      congr 1
      induction vs with
      | nil => rfl
      | cons v vs ih =>
          simp only [List.map_cons]
          rw [rukF_scalar n v (h v (by simp)), ih (fun w hw => h w (by simp [hw]))]

theorem crfF_scalar (n : Nat) (v : JSON) (h : isScalar v = true) :
    cleanupRequiredFieldsF n v = v := by
  cases n <;> cases v <;> simp_all [cleanupRequiredFieldsF, isScalar, isJsObject]

theorem crfF_scalarArr (n : Nat) (vs : List JSON) (h : ∀ v ∈ vs, isScalar v = true) :
    cleanupRequiredFieldsF n (.arr vs) = .arr vs := by
  cases n with
  | zero => rfl
  | succ n =>
      simp only [cleanupRequiredFieldsF]
      congr 1
      induction vs with
      | nil => rfl
      | cons v vs ih =>
          simp only [List.map_cons]
          rw [crfF_scalar n v (h v (by simp)), ih (fun w hw => h w (by simp [hw]))]

theorem espF_scalar (n : Nat) (v : JSON) (h : isScalar v = true) :
    addEmptySchemaPlaceholderF n v = v := by
  cases n <;> cases v <;> simp_all [addEmptySchemaPlaceholderF, isScalar, isJsObject]

theorem espF_scalarArr (n : Nat) (vs : List JSON) (h : ∀ v ∈ vs, isScalar v = true) :
    addEmptySchemaPlaceholderF n (.arr vs) = .arr vs := by
  cases n with
  | zero => rfl
  | succ n =>
      simp only [addEmptySchemaPlaceholderF]
      congr 1
      induction vs with
      | nil => rfl
      | cons v vs ih =>
          simp only [List.map_cons]
          rw [espF_scalar n v (h v (by simp)), ih (fun w hw => h w (by simp [hw]))]

/-- Option after `convertConstToEnum`: a plain single-key enum object. -/
def specEnum (s : UnionOptSpec) : JSON := .obj [("enum", .arr (specVals s))]

/-- The enum hint `addEnumHints` writes for 2–10 values. -/
def hintOf (vs : List JSON) : String := "Allowed: " ++ jsJoin ", " vs

/-- Option after `addEnumHints`: the enum plus, for 2–10 values, the hint. -/
def specHinted (s : UnionOptSpec) : JSON :=
  if 1 < (specVals s).length && (specVals s).length ≤ 10 then
    .obj [("enum", .arr (specVals s)), ("description", .str (hintOf (specVals s)))]
  else .obj [("enum", .arr (specVals s))]

theorem specVals_scalar {s : UnionOptSpec} (h : specOk s) :
    ∀ v ∈ specVals s, isScalar v = true := by
  cases s with
  | const v => intro w hw; simp only [specVals, List.mem_singleton] at hw; subst hw; exact h
  | enumVals vs => exact h.2

theorem specVals_ne_nil {s : UnionOptSpec} (h : specOk s) : specVals s ≠ [] := by
  cases s with
  | const v => simp [specVals]
  | enumVals vs => exact h.1

theorem crhF_opt (n : Nat) (s : UnionOptSpec) (h : specOk s) :
    convertRefsToHintsF n (specToJSON s) = specToJSON s := by
  cases n with
  | zero => rfl
  | succ n =>
      cases s with
      | const v =>
          simp [specToJSON, convertRefsToHintsF, objGet, crhF_scalar n v h]
      | enumVals vs =>
          simp [specToJSON, convertRefsToHintsF, objGet,
            crhF_scalarArr n vs h.2]

theorem crhF_optList (n : Nat) (specs : List UnionOptSpec) (h : ∀ s ∈ specs, specOk s) :
    convertRefsToHintsF n (.arr (specs.map specToJSON)) = .arr (specs.map specToJSON) := by
  cases n with
  | zero => rfl
  | succ n =>
      simp only [convertRefsToHintsF]
      congr 1
      induction specs with
      | nil => rfl
      | cons s specs ih =>
          simp only [List.map_cons]
          rw [crhF_opt n s (h s (by simp)), ih (fun t ht => h t (by simp [ht]))]

theorem crhF_top (n : Nat) (U : String) (hU : U = "anyOf" ∨ U = "oneOf")
    (specs : List UnionOptSpec) (h : ∀ s ∈ specs, specOk s) :
    convertRefsToHintsF n (.obj [(U, .arr (specs.map specToJSON))]) =
      .obj [(U, .arr (specs.map specToJSON))] := by
  cases n with
  | zero => rfl
  | succ n =>
      rcases hU with rfl | rfl <;>
        simp [convertRefsToHintsF, objGet, crhF_optList n specs h]

theorem cceF_opt (n : Nat) (s : UnionOptSpec) (h : specOk s) :
    convertConstToEnumF (n+1) (specToJSON s) = specEnum s := by
  cases s with
  | const v =>
      simp [specToJSON, convertConstToEnumF, objGet, jsTruthyOpt, specEnum, specVals, objSet]
  | enumVals vs =>
      simp [specToJSON, convertConstToEnumF, objGet, jsTruthyOpt, jsTruthy, specEnum, specVals,
        objSet, cceF_scalarArr n vs h.2]

theorem cceF_optList (n : Nat) (specs : List UnionOptSpec) (h : ∀ s ∈ specs, specOk s) :
    convertConstToEnumF (n+2) (.arr (specs.map specToJSON)) = .arr (specs.map specEnum) := by
  simp only [convertConstToEnumF]
  congr 1
  induction specs with
  | nil => rfl
  | cons s specs ih =>
      simp only [List.map_cons]
      rw [cceF_opt n s (h s (by simp)), ih (fun t ht => h t (by simp [ht]))]

theorem cceF_top (n : Nat) (U : String) (hU : U = "anyOf" ∨ U = "oneOf")
    (specs : List UnionOptSpec) (h : ∀ s ∈ specs, specOk s) :
    convertConstToEnumF (n+3) (.obj [(U, .arr (specs.map specToJSON))]) =
      .obj [(U, .arr (specs.map specEnum))] := by
  rcases hU with rfl | rfl
  · have h1 : convertConstToEnumF (n+3) (.obj [("anyOf", .arr (specs.map specToJSON))]) =
        .obj [("anyOf", convertConstToEnumF (n+2) (.arr (specs.map specToJSON)))] := rfl
    rw [h1, cceF_optList n specs h]
  · have h1 : convertConstToEnumF (n+3) (.obj [("oneOf", .arr (specs.map specToJSON))]) =
        .obj [("oneOf", convertConstToEnumF (n+2) (.arr (specs.map specToJSON)))] := rfl
    rw [h1, cceF_optList n specs h]

theorem aehF_opt (n : Nat) (s : UnionOptSpec) (_h : specOk s) :
    addEnumHintsF (n+1) (specEnum s) = specHinted s := by
  by_cases hl : 1 < (specVals s).length && (specVals s).length ≤ 10 <;>
    simp [specEnum, addEnumHintsF, objGet, hl, specHinted, appendHintF, descString, objSet,
      isJsObject, hintOf]

theorem aehF_optList (n : Nat) (specs : List UnionOptSpec) (h : ∀ s ∈ specs, specOk s) :
    addEnumHintsF (n+2) (.arr (specs.map specEnum)) = .arr (specs.map specHinted) := by
  simp only [addEnumHintsF]
  congr 1
  induction specs with
  | nil => rfl
  | cons s specs ih =>
      simp only [List.map_cons]
      rw [aehF_opt n s (h s (by simp)), ih (fun t ht => h t (by simp [ht]))]

theorem aehF_top (n : Nat) (U : String) (hU : U = "anyOf" ∨ U = "oneOf")
    (specs : List UnionOptSpec) (h : ∀ s ∈ specs, specOk s) :
    addEnumHintsF (n+3) (.obj [(U, .arr (specs.map specEnum))]) =
      .obj [(U, .arr (specs.map specHinted))] := by
  rcases hU with rfl | rfl
  · have h1 : addEnumHintsF (n+3) (.obj [("anyOf", .arr (specs.map specEnum))]) =
        .obj [("anyOf", addEnumHintsF (n+2) (.arr (specs.map specEnum)))] := rfl
    rw [h1, aehF_optList n specs h]
  · have h1 : addEnumHintsF (n+3) (.obj [("oneOf", .arr (specs.map specEnum))]) =
        .obj [("oneOf", addEnumHintsF (n+2) (.arr (specs.map specEnum)))] := rfl
    rw [h1, aehF_optList n specs h]

theorem aphF_opt (n : Nat) (s : UnionOptSpec) (h : specOk s) :
    addAdditionalPropertiesHintsF n (specHinted s) = specHinted s := by
  cases n with
  | zero => rfl
  | succ n =>
      by_cases hl : 1 < (specVals s).length && (specVals s).length ≤ 10 <;>
        simp [specHinted, hl, addAdditionalPropertiesHintsF, objGet, isJsObject,
          aphF_scalarArr n (specVals s) (specVals_scalar h)]

theorem aphF_optList (n : Nat) (specs : List UnionOptSpec) (h : ∀ s ∈ specs, specOk s) :
    addAdditionalPropertiesHintsF n (.arr (specs.map specHinted)) =
      .arr (specs.map specHinted) := by
  cases n with
  | zero => rfl
  | succ n =>
      simp only [addAdditionalPropertiesHintsF]
      congr 1
      induction specs with
      | nil => rfl
      | cons s specs ih =>
          simp only [List.map_cons]
          rw [aphF_opt n s (h s (by simp)), ih (fun t ht => h t (by simp [ht]))]

theorem aphF_top (n : Nat) (U : String) (hU : U = "anyOf" ∨ U = "oneOf")
    (specs : List UnionOptSpec) (h : ∀ s ∈ specs, specOk s) :
    addAdditionalPropertiesHintsF n (.obj [(U, .arr (specs.map specHinted))]) =
      .obj [(U, .arr (specs.map specHinted))] := by
  cases n with
  | zero => rfl
  | succ n =>
      rcases hU with rfl | rfl <;>
        simp [addAdditionalPropertiesHintsF, objGet, isJsObject, aphF_optList n specs h]

theorem mcdF_opt (n : Nat) (s : UnionOptSpec) (h : specOk s) :
    moveConstraintsToDescriptionF n (specHinted s) = specHinted s := by
  cases n with
  | zero => rfl
  | succ n =>
      by_cases hl : 1 < (specVals s).length && (specVals s).length ≤ 10 <;>
        simp [specHinted, hl, moveConstraintsToDescriptionF, moveConstraintsFold,
          UNSUPPORTED_CONSTRAINTS, objGet, isJsObject,
          mcdF_scalarArr n (specVals s) (specVals_scalar h)]

theorem mcdF_optList (n : Nat) (specs : List UnionOptSpec) (h : ∀ s ∈ specs, specOk s) :
    moveConstraintsToDescriptionF n (.arr (specs.map specHinted)) =
      .arr (specs.map specHinted) := by
  cases n with
  | zero => rfl
  | succ n =>
      simp only [moveConstraintsToDescriptionF]
      congr 1
      induction specs with
      | nil => rfl
      | cons s specs ih =>
          simp only [List.map_cons]
          rw [mcdF_opt n s (h s (by simp)), ih (fun t ht => h t (by simp [ht]))]

theorem mcdF_top (n : Nat) (U : String) (hU : U = "anyOf" ∨ U = "oneOf")
    (specs : List UnionOptSpec) (h : ∀ s ∈ specs, specOk s) :
    moveConstraintsToDescriptionF n (.obj [(U, .arr (specs.map specHinted))]) =
      .obj [(U, .arr (specs.map specHinted))] := by
  cases n with
  | zero => rfl
  | succ n =>
      rcases hU with rfl | rfl <;>
        simp [moveConstraintsToDescriptionF, moveConstraintsFold, UNSUPPORTED_CONSTRAINTS,
          objGet, isJsObject, mcdF_optList n specs h]

theorem maoF_opt (n : Nat) (s : UnionOptSpec) (h : specOk s) :
    mergeAllOfF n (specHinted s) = specHinted s := by
  cases n with
  | zero => rfl
  | succ n =>
      by_cases hl : 1 < (specVals s).length && (specVals s).length ≤ 10 <;>
        simp [specHinted, hl, mergeAllOfF, objGet, isJsObject,
          maoF_scalarArr n (specVals s) (specVals_scalar h)]

theorem maoF_optList (n : Nat) (specs : List UnionOptSpec) (h : ∀ s ∈ specs, specOk s) :
    mergeAllOfF n (.arr (specs.map specHinted)) = .arr (specs.map specHinted) := by
  cases n with
  | zero => rfl
  | succ n =>
      simp only [mergeAllOfF]
      congr 1
      induction specs with
      | nil => rfl
      | cons s specs ih =>
          simp only [List.map_cons]
          rw [maoF_opt n s (h s (by simp)), ih (fun t ht => h t (by simp [ht]))]

theorem maoF_top (n : Nat) (U : String) (hU : U = "anyOf" ∨ U = "oneOf")
    (specs : List UnionOptSpec) (h : ∀ s ∈ specs, specOk s) :
    mergeAllOfF n (.obj [(U, .arr (specs.map specHinted))]) =
      .obj [(U, .arr (specs.map specHinted))] := by
  cases n with
  | zero => rfl
  | succ n =>
      rcases hU with rfl | rfl <;>
        simp [mergeAllOfF, objGet, isJsObject, maoF_optList n specs h]

/-- The merged enum values: every option's literal values in order, as
`String(v)`. -/
def specsMergedVals (specs : List UnionOptSpec) : List String :=
  ((specs.map specVals).flatten).map jsString

theorem tryMergeGo_spec (specs : List UnionOptSpec) (h : ∀ s ∈ specs, specOk s) :
    ∀ acc, tryMergeGo (specs.map specHinted) acc = some (acc ++ specsMergedVals specs) := by
  induction specs with
  | nil => intro acc; simp [tryMergeGo, specsMergedVals]
  | cons s specs ih =>
      intro acc
      have hok : specOk s := h s (by simp)
      have ihh := ih (fun t ht => h t (by simp [ht]))
      cases hv : specVals s with
      | nil => exact absurd hv (specVals_ne_nil hok)
      | cons v vs =>
          cases vs with
          | nil =>
              simp [specHinted, hv, tryMergeGo, jGet, objGet, isJsObject, ihh,
                specsMergedVals, List.append_assoc]
          | cons v2 vs2 =>
              by_cases h8 : vs2.length ≤ 8 <;>
                simp [specHinted, hv, h8, tryMergeGo, jGet, objGet, isJsObject, ihh,
                  specsMergedVals, List.append_assoc]

theorem specsMergedVals_ne_nil (specs : List UnionOptSpec) (hne : specs ≠ [])
    (h : ∀ s ∈ specs, specOk s) : specsMergedVals specs ≠ [] := by
  cases specs with
  | nil => exact absurd rfl hne
  | cons s specs =>
      have hv := specVals_ne_nil (h s (by simp))
      cases hvv : specVals s with
      | nil => exact absurd hvv hv
      | cons v vs => simp [specsMergedVals, hvv]

theorem tryMerge_spec (specs : List UnionOptSpec) (hne : specs ≠ [])
    (h : ∀ s ∈ specs, specOk s) :
    tryMergeEnumFromUnion (specs.map specHinted) = some (specsMergedVals specs) := by
  have h1 := tryMergeGo_spec specs h []
  rw [List.nil_append] at h1
  have h2 := specsMergedVals_ne_nil specs hne h
  cases specs with
  | nil => exact absurd rfl hne
  | cons s ss =>
      simp only [tryMergeEnumFromUnion, List.map_cons, List.isEmpty_cons, Bool.false_eq_true,
        if_false]
      rw [show (specHinted s :: List.map specHinted ss) = List.map specHinted (s :: ss) from rfl,
        h1]
      simp [List.length_pos, h2]

theorem strArr_scalar (l : List String) : ∀ v ∈ l.map JSON.str, isScalar v = true := by
  intro v hv
  rcases List.mem_map.mp hv with ⟨s, _, rfl⟩
  rfl

theorem faoF_top (n : Nat) (U : String) (hU : U = "anyOf" ∨ U = "oneOf")
    (specs : List UnionOptSpec) (hne : specs ≠ []) (h : ∀ s ∈ specs, specOk s) :
    flattenAnyOfOneOfF (n+1) (.obj [(U, .arr (specs.map specHinted))]) =
      .obj [("type", .str "string"), ("enum", .arr ((specsMergedVals specs).map JSON.str))] := by
  have hm := tryMerge_spec specs hne h
  have hs := faoF_scalarArr n ((specsMergedVals specs).map JSON.str)
    (strArr_scalar (specsMergedVals specs))
  rcases hU with rfl | rfl <;>
    simp [flattenAnyOfOneOfF, flattenUnionKey, objGet, descString, hm, objDel, objSet,
      isJsObject, hs, List.length_pos, hne, List.map_eq_nil_iff]

theorem ftaF_X3 (n : Nat) (vals : List String) :
    flattenTypeArraysF n (.obj [("type", .str "string"), ("enum", .arr (vals.map JSON.str))]) =
      .obj [("type", .str "string"), ("enum", .arr (vals.map JSON.str))] := by
  cases n with
  | zero => rfl
  | succ n =>
      simp [flattenTypeArraysF, flattenTypeStep, objGet, isJsObject,
        ftaRecF_scalarArr n (vals.map JSON.str) (strArr_scalar vals)]

theorem rukF_X3 (n : Nat) (vals : List String) :
    removeUnsupportedKeywordsF n (.obj [("type", .str "string"), ("enum", .arr (vals.map JSON.str))]) =
      .obj [("type", .str "string"), ("enum", .arr (vals.map JSON.str))] := by
  cases n with
  | zero => rfl
  | succ n =>
      simp [removeUnsupportedKeywordsF, UNSUPPORTED_KEYWORDS, UNSUPPORTED_CONSTRAINTS,
        objSet, isJsObject, rukF_scalarArr n (vals.map JSON.str) (strArr_scalar vals)]

theorem crfF_X3 (n : Nat) (vals : List String) :
    cleanupRequiredFieldsF n (.obj [("type", .str "string"), ("enum", .arr (vals.map JSON.str))]) =
      .obj [("type", .str "string"), ("enum", .arr (vals.map JSON.str))] := by
  cases n with
  | zero => rfl
  | succ n =>
      simp [cleanupRequiredFieldsF, objGet, isJsObject,
        crfF_scalarArr n (vals.map JSON.str) (strArr_scalar vals)]

theorem espF_X3 (n : Nat) (vals : List String) :
    addEmptySchemaPlaceholderF n (.obj [("type", .str "string"), ("enum", .arr (vals.map JSON.str))]) =
      .obj [("type", .str "string"), ("enum", .arr (vals.map JSON.str))] := by
  cases n with
  | zero => rfl
  | succ n =>
      simp [addEmptySchemaPlaceholderF, objGet, isJsObject, isStrVal,
        espF_scalarArr n (vals.map JSON.str) (strArr_scalar vals)]

theorem jsonSize_pos (j : JSON) : 1 ≤ jsonSize j := by
  cases j <;> simp [jsonSize]

theorem jsonSize_top_ge (U : String) (o : JSON) (os : List JSON) :
    3 ≤ jsonSize (.obj [(U, .arr (o :: os))]) := by
  have := jsonSize_pos o
  simp only [jsonSize, jsonSizeFields, jsonSizeList]
  omega

theorem clean_const_union (U : String) (hU : U = "anyOf" ∨ U = "oneOf")
    (specs : List UnionOptSpec) (hne : specs ≠ []) (h : ∀ s ∈ specs, specOk s) :
    cleanJSONSchemaForAntigravity (.obj [(U, .arr (specs.map specToJSON))]) =
      .obj [("type", .str "string"), ("enum", .arr ((specsMergedVals specs).map JSON.str))] := by
  obtain ⟨s0, ss, rfl⟩ := List.exists_cons_of_ne_nil hne
  set X0 : JSON := .obj [(U, .arr ((s0 :: ss).map specToJSON))] with hX0
  set X1 : JSON := .obj [(U, .arr ((s0 :: ss).map specEnum))] with hX1
  set X2 : JSON := .obj [(U, .arr ((s0 :: ss).map specHinted))] with hX2
  set X3 : JSON := .obj [("type", .str "string"),
    ("enum", .arr ((specsMergedVals (s0 :: ss)).map JSON.str))] with hX3
  have hsz0 : 3 ≤ jsonSize X0 := by
    rw [hX0]; simpa using jsonSize_top_ge U (specToJSON s0) (ss.map specToJSON)
  have hsz1 : 3 ≤ jsonSize X1 := by
    rw [hX1]; simpa using jsonSize_top_ge U (specEnum s0) (ss.map specEnum)
  obtain ⟨m0, hm0⟩ : ∃ m, jsonSize X0 = m + 3 := ⟨jsonSize X0 - 3, by omega⟩
  obtain ⟨m1, hm1⟩ : ∃ m, jsonSize X1 = m + 3 := ⟨jsonSize X1 - 3, by omega⟩
  obtain ⟨m2, hm2⟩ : ∃ m, jsonSize X2 = m + 1 :=
    ⟨jsonSize X2 - 1, by have := jsonSize_pos X2; omega⟩
  obtain ⟨m3, hm3⟩ : ∃ m, jsonSize X3 = m + 1 :=
    ⟨jsonSize X3 - 1, by have := jsonSize_pos X3; omega⟩
  have e1 : convertRefsToHints X0 = X0 := crhF_top (jsonSize X0) U hU (s0 :: ss) h
  have e2 : convertConstToEnum X0 = X1 := by
    show convertConstToEnumF (jsonSize X0) X0 = X1
    rw [hm0]; exact cceF_top m0 U hU (s0 :: ss) h
  have e3 : addEnumHints X1 = X2 := by
    show addEnumHintsF (jsonSize X1) X1 = X2
    rw [hm1]; exact aehF_top m1 U hU (s0 :: ss) h
  have e4 : addAdditionalPropertiesHints X2 = X2 := aphF_top (jsonSize X2) U hU (s0 :: ss) h
  have e5 : moveConstraintsToDescription X2 = X2 := mcdF_top (jsonSize X2) U hU (s0 :: ss) h
  have e6 : mergeAllOf X2 = X2 := maoF_top (jsonSize X2) U hU (s0 :: ss) h
  have e7 : flattenAnyOfOneOf X2 = X3 := by
    show flattenAnyOfOneOfF (jsonSize X2) X2 = X3
    rw [hm2]; exact faoF_top m2 U hU (s0 :: ss) (by simp) h
  have e8 : flattenTypeArrays X3 = X3 := ftaF_X3 (jsonSize X3) (specsMergedVals (s0 :: ss))
  have e9 : removeUnsupportedKeywords X3 = X3 := rukF_X3 (jsonSize X3) (specsMergedVals (s0 :: ss))
  have e10 : cleanupRequiredFields X3 = X3 := crfF_X3 (jsonSize X3) (specsMergedVals (s0 :: ss))
  have e11 : addEmptySchemaPlaceholder X3 = X3 := espF_X3 (jsonSize X3) (specsMergedVals (s0 :: ss))
  show cleanJSONSchemaForAntigravity X0 = X3
  unfold cleanJSONSchemaForAntigravity
  rw [show (!isJsObject X0) = false from by rw [hX0]; rfl]
  simp only [Bool.false_eq_true, if_false]
  rw [e1, e2, e3, e4, e5, e6, e7, e8, e9, e10, e11]

set_option maxHeartbeats 1000000 in
/-- C6: cleanJSONSchemaForAntigravity sends \x7banyOf:[\x7bconst:"a"\x7d,\x7bconst:"b"\x7d]\x7d to
exactly \x7btype:"string", enum:["a","b"]\x7d; and in general an anyOf or oneOf whose every
option is a plain const or enum of scalar values collapses to a single string-typed
schema whose enum is the concatenation of all the options' literal values. -/
theorem C6_const_union_flattening
    (specs : List UnionOptSpec) (hne : specs ≠ []) (hok : ∀ s ∈ specs, specOk s) :
    cleanJSONSchemaForAntigravity
        (.obj [("anyOf",
          .arr [.obj [("const", .str "a")], .obj [("const", .str "b")]])]) =
      .obj [("type", .str "string"), ("enum", .arr [.str "a", .str "b"])] ∧
    cleanJSONSchemaForAntigravity (.obj [("anyOf", .arr (specs.map specToJSON))]) =
      .obj [("type", .str "string"), ("enum", .arr ((specsMergedVals specs).map JSON.str))] ∧
    cleanJSONSchemaForAntigravity (.obj [("oneOf", .arr (specs.map specToJSON))]) =
      .obj [("type", .str "string"), ("enum", .arr ((specsMergedVals specs).map JSON.str))] :=
  ⟨rfl, clean_const_union "anyOf" (Or.inl rfl) specs hne hok,
    clean_const_union "oneOf" (Or.inr rfl) specs hne hok⟩

/-- Witness for C6 at a concrete two-option union (one const, one two-value enum). -/
theorem C6_const_union_flattening_witness :
    cleanJSONSchemaForAntigravity
        (.obj [("oneOf", .arr (([UnionOptSpec.const (.str "a"),
          UnionOptSpec.enumVals [.str "b", .str "c"]]).map specToJSON))]) =
      .obj [("type", .str "string"),
        ("enum", .arr ((specsMergedVals [UnionOptSpec.const (.str "a"),
          UnionOptSpec.enumVals [.str "b", .str "c"]]).map JSON.str))] :=
  (C6_const_union_flattening
    [.const (.str "a"), .enumVals [.str "b", .str "c"]]
    (by simp) (by simp [specOk, isScalar, isJsObject])).2.2
